import Mathlib

/-!
Verification of the Refactoring-Swarm workflow engine.

This file is a shallow embedding, in Lean 4, of the control-flow core of the
repository: the orchestrator's batch convergence loop (`src/orchestrator.py`),
the three agents (`auditor.py`, `fixer.py`, `judge.py`), the model-gateway
retry policy (`llm_client.py`), the sandboxed path checks (`file_tools.py`,
`filesystem.py`) and the test-artifact path layout.  Externals (the LLM
backend, pylint, pytest, the filesystem) are modelled as oracles: functions
supplied as parameters that say what each call would have returned.  All
definitions mirror the Python source line by line; theorems about them settle
the frozen claims.
-/

namespace RefactorSwarm

/-! ## Quality prober results (`Tools.run_pylint`)

`run_pylint` returns a dict `{score, issues, issue_count}` on success and
`{score: 0.0, issues: [], error: msg}` on timeout or crash.  The `error` key
is present exactly when the `Option` below is `some`. -/

structure PylintResult where
  score : ℚ
  issues : List String
  error : Option String
deriving DecidableEq

/-! ## Auditor agent (`auditor.py`)

`analyze_file` reads the file, runs pylint, asks the model for an analysis and
computes `needs_refactoring`.  A quota error propagates; any other model error
degrades to a pylint-only verdict; any other exception (e.g. a read failure)
escapes to `create_refactoring_plan`, which catches it and drops the file. -/

/-- The `needs_refactoring` flag computed at `auditor.py:109-113` (and again in
the degraded branch at lines 77-81):
score below 7.0, or a non-empty issue list, or an `error` key in the pylint
dict. -/
def needsRefactoring (p : PylintResult) : Bool :=
  decide (p.score < 7) || !p.issues.isEmpty || p.error.isSome

structure Analysis where
  filepath : String
  pylint : PylintResult
  llmAnalysis : String
  needs : Bool
  analysisError : Option String
deriving DecidableEq

/-- What the world did when `analyze_file` ran on a given file: the model call
succeeded with a response, failed with a (non-quota) `LLMError`, some other
exception was raised inside `analyze_file`, or the quota was exhausted. -/
inductive AnalyzeOutcome where
  | ok (response : String)
  | llmError (msg : String)
  | otherError
  | quota
deriving DecidableEq

inductive AnalyzeExc where
  | quota
  | generic
deriving DecidableEq

instance instDecidableEqExcept {e a : Type} [DecidableEq e] [DecidableEq a] :
    DecidableEq (Except e a) := fun x y =>
  match x, y with
  | .error u, .error v =>
      match decEq u v with
      | isTrue h => isTrue (congrArg Except.error h)
      | isFalse h => isFalse (fun hc => h (by injection hc))
  | .error _, .ok _ => isFalse (fun hc => Except.noConfusion hc)
  | .ok _, .error _ => isFalse (fun hc => Except.noConfusion hc)
  | .ok u, .ok v =>
      match decEq u v with
      | isTrue h => isTrue (congrArg Except.ok h)
      | isFalse h => isFalse (fun hc => h (by injection hc))

/-- `AuditorAgent.analyze_file` (auditor.py:19-114).  `PyO` is the pylint
oracle and `AO` the per-file outcome of the body. -/
def analyzeFile (PyO : String → PylintResult) (AO : String → AnalyzeOutcome)
    (fp : String) : Except AnalyzeExc Analysis :=
  match AO fp with
  | .quota => .error .quota
  | .otherError => .error .generic
  | .llmError msg =>
      let p := PyO fp
      .ok ⟨fp, p, "LLM error: " ++ msg ++ " - Please check your API quota.",
           needsRefactoring p, some msg⟩
  | .ok response =>
      let p := PyO fp
      .ok ⟨fp, p, response, needsRefactoring p, none⟩

/-- The loop body of `AuditorAgent.create_refactoring_plan` (auditor.py:134-156):
quota errors re-raise, any other exception is logged and the file is skipped
(not appended to `analyses`). -/
def planAux (PyO : String → PylintResult) (AO : String → AnalyzeOutcome) :
    List String → List Analysis → Except Unit (List Analysis)
  | [], acc => .ok acc
  | f :: fs, acc =>
      match analyzeFile PyO AO f with
      | .error .quota => .error ()
      | .error .generic => planAux PyO AO fs acc
      | .ok a => planAux PyO AO fs (acc ++ [a])

/-- `AuditorAgent.create_refactoring_plan` (auditor.py:116-156). -/
def createRefactoringPlan (PyO : String → PylintResult)
    (AO : String → AnalyzeOutcome) (files : List String) :
    Except Unit (List Analysis) :=
  planAux PyO AO files []

/-! ## Fixer agent (`fixer.py`)

The orchestrator only inspects the `fixed` flag of `fix_file`'s result dict;
`fix_file` itself also computes an `improved` flag (new pylint score strictly
greater than the analysis-time score, fixer.py:174) which the orchestrator
never reads. -/

/-- The world's behaviour for one `fix_file` call: quota, a non-quota model
error (returns `fixed: False`), a write/pylint exception (also `fixed: False`,
fixer.py:177-196), or success with the pylint score measured after the
write (fixer.py:152). -/
inductive FixOutcome where
  | quota
  | llmError (msg : String)
  | writeError (msg : String)
  | ok (newScore : ℚ)
deriving DecidableEq

structure FixResult where
  fixed : Bool
  improved : Bool
  error : Option String
deriving DecidableEq

/-- `FixerAgent.fix_file` (fixer.py:75-196), given the call's outcome. -/
def fixFile (FixO : String → Nat → FixOutcome) (fp : String) (a : Analysis)
    (iter : Nat) : Except Unit FixResult :=
  match FixO fp iter with
  | .quota => .error ()
  | .llmError m => .ok ⟨false, false, some m⟩
  | .writeError m => .ok ⟨false, false, some m⟩
  | .ok newScore => .ok ⟨true, decide (a.pylint.score < newScore), none⟩

/-! ## Judge agent (`judge.py`) -/

/-- `Tools.run_pytest` results (file_tools.py:146-195): the normal branch has
`stdout`/`stderr`; the timeout and exception branches do not (only `passed:
False` and an `error` string). -/
structure TestResults where
  passed : Bool
  stdout : Option String
  stderr : Option String
deriving DecidableEq

/-- Outcome of one `judge.validate_code` call as seen from the orchestrator:
quota (raised out of `generate_tests`), test generation failed (non-quota:
`generate_tests` returned `None`), or the generated tests were run. -/
inductive ValOutcome where
  | quota
  | genFailed
  | tests (tr : TestResults)
deriving DecidableEq

structure ValidationResult where
  validated : Bool
  error : Option String
  testResults : Option TestResults
deriving DecidableEq

/-- `JudgeAgent.validate_code` (judge.py:147-192): when `generate_tests`
returns `None` it answers `{validated: False, error: "Could not generate
tests"}` without raising; otherwise it reports the pytest verdict. -/
def validateCode (vo : ValOutcome) : Except Unit ValidationResult :=
  match vo with
  | .quota => .error ()
  | .genFailed => .ok ⟨false, some "Could not generate tests", none⟩
  | .tests tr => .ok ⟨tr.passed, none, some tr⟩

/-- `JudgeAgent.get_failure_feedback` (judge.py:194-216).  A missing
`test_results` dict degrades to the `'No output'` / `'No errors'` defaults. -/
def getFailureFeedback (fp : String) (vr : ValidationResult) : String :=
  let so := match vr.testResults with
    | none => "No output"
    | some tr => tr.stdout.getD "No output"
  let se := match vr.testResults with
    | none => "No errors"
    | some tr => tr.stderr.getD "No errors"
  "Test Failure Report for " ++ fp ++ ":\n\nSTDOUT:\n" ++ so ++
    "\n\nSTDERR:\n" ++ se ++ "\n\nPlease fix the code to pass these tests.\n"

/-! ## Orchestrator state (`orchestrator.py`)

`pending` and `results` are Python dicts keyed by filepath; we embed them as
insertion-ordered association lists, with an update operation that has exact
dict-assignment semantics (replace in place if the key exists, else append). -/

inductive Verdict where
  | no_fix_needed
  | fix_failed
  | success
  | quota_exhausted
  | max_iterations
deriving DecidableEq

/-- One entry of the orchestrator's `results` dict.  `validated`, `improved`
and `iterations` are read back with `.get(key, default)`, so absent keys are
embedded as the default (`false` / `none`). -/
structure FileRecord where
  status : Verdict
  validated : Bool
  improved : Bool
  iterations : Option Nat
  finalScore : Option ℚ
deriving DecidableEq

/-- The record written for a clean file (orchestrator.py:65-71). -/
def noFixRecord (score : ℚ) : FileRecord :=
  ⟨.no_fix_needed, true, false, some 0, some score⟩

/-- The record written when a fix attempt fails (orchestrator.py:98-103). -/
def fixFailedRecord (iter : Nat) : FileRecord :=
  ⟨.fix_failed, false, false, some iter, none⟩

/-- The record written when validation passes (orchestrator.py:114-120);
note `improved` is hard-coded to `True` there. -/
def successRecord (iter : Nat) : FileRecord :=
  ⟨.success, true, true, some iter, none⟩

/-- The record written in the quota-exhaustion handler
(orchestrator.py:138-143). -/
def quotaRecord : FileRecord :=
  ⟨.quota_exhausted, false, false, none, none⟩

/-- The record written after the loop for files never validated
(orchestrator.py:148-154). -/
def maxIterRecord (maxIter : Nat) : FileRecord :=
  ⟨.max_iterations, false, false, some maxIter, none⟩

/-- Python dict assignment `d[k] = v` on an insertion-ordered association
list: replace in place when the key is present, append otherwise. -/
def dinsert {α : Type} (l : List (String × α)) (k : String) (v : α) :
    List (String × α) :=
  if l.any (fun x => x.1 = k) then
    l.map (fun x => if x.1 = k then (k, v) else x)
  else l ++ [(k, v)]

/-- Keys of an association list, in order. -/
def keys {α : Type} (l : List (String × α)) : List String := l.map Prod.fst

/-- One step of the Phase-1 partition loop (orchestrator.py:61-73): a clean
file gets an immediate `no_fix_needed` record, the rest enter `pending`. -/
def partStep (st : List (String × Analysis) × List (String × FileRecord))
    (a : Analysis) : List (String × Analysis) × List (String × FileRecord) :=
  if a.needs then (dinsert st.1 a.filepath a, st.2)
  else (st.1, dinsert st.2 a.filepath (noFixRecord a.pylint.score))

/-- The Phase-1 partition loop (orchestrator.py:61-73). -/
def partitionAnalyses (analyses : List Analysis) :
    List (String × Analysis) × List (String × FileRecord) :=
  analyses.foldl partStep ([], [])

/-- The repair sub-phase (orchestrator.py:92-104): iterate over a snapshot of
`pending`; a failed fix writes a `fix_failed` record and deletes the file from
`pending`; a quota signal aborts with the dict contents at that moment.
`todo` is the unprocessed part of the snapshot, `kept` the files already
processed and still pending, `calls` the `(file, iteration)` pairs for which
`fix_file` was invoked. -/
def fixPass (FixO : String → Nat → FixOutcome) (iter : Nat) :
    List (String × Analysis) → List (String × Analysis) →
    List (String × FileRecord) → List (String × Nat) →
    Except
      (List (String × Analysis) × List (String × FileRecord) × List (String × Nat))
      (List (String × Analysis) × List (String × FileRecord) × List (String × Nat))
  | [], kept, res, calls => .ok (kept, res, calls)
  | (fp, a) :: todo, kept, res, calls =>
      match fixFile FixO fp a iter with
      | .error _ => .error (kept ++ (fp, a) :: todo, res, calls ++ [(fp, iter)])
      | .ok fr =>
          if fr.fixed then
            fixPass FixO iter todo (kept ++ [(fp, a)]) res (calls ++ [(fp, iter)])
          else
            fixPass FixO iter todo kept
              (dinsert res fp (fixFailedRecord iter)) (calls ++ [(fp, iter)])

/-- Feedback accumulation on a failed validation (orchestrator.py:124-126):
the failure report is appended to the analysis text handed to the next fix. -/
def addFeedback (a : Analysis) (fb : String) : Analysis :=
  { a with llmAnalysis := a.llmAnalysis ++ "\n\nTest failure:\n" ++ fb }

/-- The validation sub-phase (orchestrator.py:106-127): a pass writes a
`success` record (with `improved` hard-coded `True`) and removes the file; a
failure appends feedback and keeps the file pending; quota aborts with the
dict contents at that moment.  `anyFailed` mirrors `failed_this_round`. -/
def valPass (ValO : String → Nat → ValOutcome) (iter : Nat) :
    List (String × Analysis) → List (String × Analysis) →
    List (String × FileRecord) → List (String × Nat) → Bool →
    Except
      (List (String × Analysis) × List (String × FileRecord) × List (String × Nat))
      (List (String × Analysis) × List (String × FileRecord) × List (String × Nat) × Bool)
  | [], kept, res, calls, anyFailed => .ok (kept, res, calls, anyFailed)
  | (fp, a) :: todo, kept, res, calls, anyFailed =>
      match validateCode (ValO fp iter) with
      | .error _ => .error (kept ++ (fp, a) :: todo, res, calls ++ [(fp, iter)])
      | .ok vr =>
          if vr.validated then
            valPass ValO iter todo kept
              (dinsert res fp (successRecord iter)) (calls ++ [(fp, iter)]) anyFailed
          else
            valPass ValO iter todo
              (kept ++ [(fp, addFeedback a (getFailureFeedback fp vr))]) res
              (calls ++ [(fp, iter)]) true

/-- Exit state of the Phase-2 loop: the final `pending` and `results` dicts,
the call traces, and whether a quota signal unwound the loop. -/
structure LoopOut where
  pending : List (String × Analysis)
  results : List (String × FileRecord)
  fixCalls : List (String × Nat)
  valCalls : List (String × Nat)
  quota : Bool
deriving DecidableEq

/-- The `for iteration in range(1, max_iterations + 1)` loop
(orchestrator.py:84-131).  `roundsLeft` counts the remaining rounds, so the
current iteration number is `maxIter - roundsLeft + 1`; the loop breaks when
`pending` is empty or a round had no validation failure, and a quota signal
from either sub-phase unwinds it. -/
def runLoop (FixO : String → Nat → FixOutcome) (ValO : String → Nat → ValOutcome)
    (maxIter : Nat) :
    Nat → List (String × Analysis) → List (String × FileRecord) →
    List (String × Nat) → List (String × Nat) → LoopOut
  | 0, pending, res, fc, vc => ⟨pending, res, fc, vc, false⟩
  | roundsLeft + 1, pending, res, fc, vc =>
      if pending.isEmpty then ⟨pending, res, fc, vc, false⟩
      else
        match fixPass FixO (maxIter - roundsLeft) pending [] res fc with
        | .error (pq, resq, fcq) => ⟨pq, resq, fcq, vc, true⟩
        | .ok (p1, res1, fc1) =>
            match valPass ValO (maxIter - roundsLeft) p1 [] res1 vc false with
            | .error (pq, resq, vcq) => ⟨pq, resq, fc1, vcq, true⟩
            | .ok (p2, res2, vc2, anyFailed) =>
                if anyFailed then runLoop FixO ValO maxIter roundsLeft p2 res2 fc1 vc2
                else ⟨p2, res2, fc1, vc2, false⟩

/-- Stamp every still-pending file with a terminal record, in `pending` order
(the two `for filepath in pending` loops at orchestrator.py:138-143 and
147-154). -/
def markAll (p : List (String × Analysis)) (res : List (String × FileRecord))
    (r : FileRecord) : List (String × FileRecord) :=
  p.foldl (fun res x => dinsert res x.1 r) res

/-- `RefactoringOrchestrator._build_summary` (orchestrator.py:159-179). -/
structure BatchSummary where
  totalFiles : Nat
  successful : Nat
  improved : Nat
  results : List (String × FileRecord)
deriving DecidableEq

def buildSummary (res : List (String × FileRecord)) : BatchSummary :=
  ⟨res.length,
   (res.filter (fun r => r.2.validated)).length,
   (res.filter (fun r => r.2.improved)).length,
   res⟩

/-- `run`'s three result shapes (orchestrator.py:49, 53, 173-179). -/
inductive RunResult where
  | quotaPhase1
  | noFiles
  | summary (s : BatchSummary)
deriving DecidableEq

/-- `RefactoringOrchestrator.run` (orchestrator.py:28-157), also yielding the
fix/validate call traces.  A Phase-1 quota aborts with zero files processed;
an empty plan means `no_files`; otherwise Phase 2 runs and the summary is
built, marking leftover pending files `quota_exhausted` after a quota unwind
and `max_iterations` after a normal exit. -/
def runX (PyO : String → PylintResult) (AO : String → AnalyzeOutcome)
    (FixO : String → Nat → FixOutcome) (ValO : String → Nat → ValOutcome)
    (files : List String) (maxIter : Nat) :
    RunResult × List (String × Nat) × List (String × Nat) :=
  match createRefactoringPlan PyO AO files with
  | .error _ => (.quotaPhase1, [], [])
  | .ok analyses =>
      if analyses.isEmpty then (.noFiles, [], [])
      else
        if (partitionAnalyses analyses).1.isEmpty then
          (.summary (buildSummary (partitionAnalyses analyses).2), [], [])
        else
          if (runLoop FixO ValO maxIter maxIter (partitionAnalyses analyses).1
                (partitionAnalyses analyses).2 [] []).quota then
            (.summary (buildSummary (markAll
                (runLoop FixO ValO maxIter maxIter (partitionAnalyses analyses).1
                  (partitionAnalyses analyses).2 [] []).pending
                (runLoop FixO ValO maxIter maxIter (partitionAnalyses analyses).1
                  (partitionAnalyses analyses).2 [] []).results quotaRecord)),
             (runLoop FixO ValO maxIter maxIter (partitionAnalyses analyses).1
               (partitionAnalyses analyses).2 [] []).fixCalls,
             (runLoop FixO ValO maxIter maxIter (partitionAnalyses analyses).1
               (partitionAnalyses analyses).2 [] []).valCalls)
          else
            (.summary (buildSummary (markAll
                (runLoop FixO ValO maxIter maxIter (partitionAnalyses analyses).1
                  (partitionAnalyses analyses).2 [] []).pending
                (runLoop FixO ValO maxIter maxIter (partitionAnalyses analyses).1
                  (partitionAnalyses analyses).2 [] []).results (maxIterRecord maxIter))),
             (runLoop FixO ValO maxIter maxIter (partitionAnalyses analyses).1
               (partitionAnalyses analyses).2 [] []).fixCalls,
             (runLoop FixO ValO maxIter maxIter (partitionAnalyses analyses).1
               (partitionAnalyses analyses).2 [] []).valCalls)

def run (PyO : String → PylintResult) (AO : String → AnalyzeOutcome)
    (FixO : String → Nat → FixOutcome) (ValO : String → Nat → ValOutcome)
    (files : List String) (maxIter : Nat) : RunResult :=
  (runX PyO AO FixO ValO files maxIter).1

/-! ## The repair worker's sanitizer (`FixerAgent._remove_test_code`,
fixer.py:20-73)

The Python routine splits on newlines and runs a line filter with a
`skip_until_dedent` flag.  We embed each regex as an explicit matcher.
Python's `\s` on a single line is one of space, tab, CR, FF, VT. -/

def pyIsWS (c : Char) : Bool :=
  c = ' ' || c = '\t' || c = '\r' || c = '\x0c' || c = '\x0b'

/-- `len(line) - len(line.lstrip())`. -/
def indentOf (l : String) : Nat := (l.toList.takeWhile pyIsWS).length

/-- `line.strip() == ''`. -/
def isBlank (l : String) : Bool := l.toList.all pyIsWS

/-- Python's `sub in s` substring test. -/
def containsSub (sub : List Char) : List Char → Bool
  | [] => sub.isEmpty
  | c :: cs => List.isPrefixOf sub (c :: cs) || containsSub sub cs

/-- Strip a literal prefix, or fail. -/
def afterLit : List Char → List Char → Option (List Char)
  | [], cs => some cs
  | _ :: _, [] => none
  | k :: ks, c :: cs => if c = k then afterLit ks cs else none

/-- `re.match(r'^KW\s+(unittest|pytest)', line)` for `KW` = `import`/`from`
(fixer.py:37-40). -/
def matchTestModuleAfter (kw : List Char) (l : String) : Bool :=
  match afterLit kw l.toList with
  | none => false
  | some rest =>
      !(rest.takeWhile pyIsWS).isEmpty &&
        (List.isPrefixOf "unittest".toList (rest.dropWhile pyIsWS) ||
         List.isPrefixOf "pytest".toList (rest.dropWhile pyIsWS))

def isTestImport (l : String) : Bool :=
  matchTestModuleAfter "import".toList l || matchTestModuleAfter "from".toList l

/-- `re.match(r'^class\s+Test\w*.*:', line)`: since `\w*.*` matches anything
without a newline, this holds exactly when the line starts with `class`,
whitespace, `Test`, and a colon occurs somewhere after. -/
def matchTestClass (l : String) : Bool :=
  match afterLit "class".toList l.toList with
  | none => false
  | some rest =>
      !(rest.takeWhile pyIsWS).isEmpty &&
        match afterLit "Test".toList (rest.dropWhile pyIsWS) with
        | none => false
        | some r2 => r2.contains ':'

/-- The test-class trigger (fixer.py:43): the class regex, or the substring
`unittest.TestCase` anywhere in the line. -/
def isClassTrigger (l : String) : Bool :=
  matchTestClass l || containsSub "unittest.TestCase".toList l.toList

def pyIsWord (c : Char) : Bool := c.isAlphanum || c = '_'

/-- `re.match(r'^def\s+test_\w+\s*\(', line)` (fixer.py:58). -/
def matchTestDef (l : String) : Bool :=
  match afterLit "def".toList l.toList with
  | none => false
  | some rest =>
      !(rest.takeWhile pyIsWS).isEmpty &&
        match afterLit "test_".toList (rest.dropWhile pyIsWS) with
        | none => false
        | some r2 =>
            !(r2.takeWhile pyIsWord).isEmpty &&
              ((r2.dropWhile pyIsWord).dropWhile pyIsWS).head? = some '('

/-- The `unittest.main()` / `pytest.main()` trigger (fixer.py:64). -/
def isMainTrigger (l : String) : Bool :=
  containsSub "unittest.main()".toList l.toList ||
    containsSub "pytest.main()".toList l.toList

/-- The line loop of `_remove_test_code` (fixer.py:35-67).  The import and
class-trigger checks run before the dedent check, so they fire even while a
block is being skipped; when a non-blank line dedents to at most
`classIndent`, skipping stops and the line falls through to the remaining
checks before being emitted. -/
def sanitizeLines : List String → Bool → Nat → List String
  | [], _, _ => []
  | l :: ls, skip, classIndent =>
      if isTestImport l then sanitizeLines ls skip classIndent
      else if isClassTrigger l then sanitizeLines ls true (indentOf l)
      else if skip && (isBlank l || decide (classIndent < indentOf l)) then
        sanitizeLines ls true classIndent
      else if matchTestDef l then sanitizeLines ls true 0
      else if isMainTrigger l then sanitizeLines ls false classIndent
      else l :: sanitizeLines ls false classIndent

/-- The trailing-blank-line trim (fixer.py:70-71). -/
def dropTrailingBlanks (ls : List String) : List String :=
  (ls.reverse.dropWhile (fun l => isBlank l)).reverse

/-- `code.split('\n')`. -/
def pyLines (s : String) : List String :=
  (s.toList.splitOn '\n').map (fun cs => String.mk cs)

/-- `'\n'.join(lines)`. -/
def joinLines (ls : List String) : String := String.intercalate "\n" ls

/-- `FixerAgent._remove_test_code` (fixer.py:20-73). -/
def removeTestCode (code : String) : String :=
  joinLines (dropTrailingBlanks (sanitizeLines (pyLines code) false 0))

/-! ## Test-artifact paths and cleanup (`judge.py:90-111`,
`orchestrator.py:181-189`)

Relative paths under the working root are plain `/`-separated strings. -/

/-- Split a path at `/` separators. -/
def splitSlash (p : String) : List String :=
  (p.toList.splitOn '/').map (fun cs => String.mk cs)

/-- `os.path.basename` for `/`-separated relative paths. -/
def basenameOf (p : String) : String :=
  ((splitSlash p).getLast?).getD ""

/-- `os.path.dirname` for `/`-separated relative paths. -/
def dirnameOf (p : String) : String :=
  String.intercalate "/" (splitSlash p).dropLast

/-- Python's `s.startswith(pre)`. -/
def strStarts (pre s : String) : Bool :=
  List.isPrefixOf pre.toList s.toList

/-- `os.path.join` for relative components. -/
def joinPath (a b : String) : String :=
  if a = "" then b else a ++ "/" ++ b

/-- Where `JudgeAgent.generate_tests` writes the test artifact for a source
file (judge.py:93-99): a `tests` subfolder colocated with the source file,
file name `test_` + basename. -/
def testFilePath (fp : String) : String :=
  let d := dirnameOf fp
  let testsDir := if d = "" then "tests" else joinPath d "tests"
  joinPath testsDir ("test_" ++ basenameOf fp)

/-- The directory `generate_tests` drops its `__init__.py` marker in
(judge.py:98,105-111). -/
def testsDirOf (fp : String) : String :=
  let d := dirnameOf fp
  if d = "" then "tests" else joinPath d "tests"

/-- The single directory tree removed by
`RefactoringOrchestrator._cleanup_tests` (orchestrator.py:181-189):
`working_dir / target_dir / 'tests'`.  `main.py` always calls `run` with
`target_dir='.'`, and `Path('.')/'tests'` is `tests`. -/
def cleanupTargetDir (targetDir : String) : String :=
  if targetDir = "." then "tests" else joinPath targetDir "tests"

/-- Whether a relative path lies inside the subtree `_cleanup_tests`
removes. -/
def removedByCleanup (targetDir p : String) : Bool :=
  p = cleanupTargetDir targetDir ||
    strStarts (cleanupTargetDir targetDir ++ "/") p

/-! ## Sandbox containment checks

Two path-containment implementations exist in the repository.
`Tools._is_safe_path` (file_tools.py:21-27) uses
`Path.is_relative_to`; `_resolve_and_validate` (filesystem.py:12-29)
uses a raw string-prefix test `str(resolved).startswith(str(SANDBOX_ROOT))`.
We model already-resolved absolute paths as strings without a trailing
slash. -/

/-- `Path(p).is_relative_to(root)` on resolved paths: `p` equals `root` or
extends it at a component boundary. -/
def isRelativeToRoot (root p : String) : Bool :=
  p = root || strStarts (root ++ "/") p

/-- The containment test of `filesystem._resolve_and_validate`
(filesystem.py:24): a bare string-prefix check. -/
def sandboxPrefixCheck (root p : String) : Bool :=
  strStarts root p

/-! ## Model gateway (`llm_client.py`)

`generate` loops `for attempt in range(max_retries + 1)`, classifying every
exception by its lowered message: a rate-limit message sleeps and retries
while `attempt < max_retries` and becomes `QuotaExhaustedError` on the last
attempt; any other error breaks out and is raised as `LLMError`. -/

/-- `str(e).lower()` (ASCII). -/
def lowerStr (s : String) : String := String.mk (s.toList.map Char.toLower)

/-- `'429' in error_str or 'rate limit' in error_str` (llm_client.py:99). -/
def isRateLimitMsg (s : String) : Bool :=
  containsSub "429".toList s.toList || containsSub "rate limit".toList s.toList

/-- Value of a digit run. -/
def natOfDigits (ds : List Char) : Nat :=
  ds.foldl (fun n c => 10 * n + (c.toNat - Char.toNat '0')) 0

/-- The numeric part of the retry-delay regexes: `\d+\.?\d*` followed by a
literal `s`, starting at the head of `cs`; returns the parsed value. -/
def numThenS (cs : List Char) : Option ℚ :=
  let ds := cs.takeWhile Char.isDigit
  if ds.isEmpty then none
  else
    let intPart : ℚ := natOfDigits ds
    match cs.dropWhile Char.isDigit with
    | '.' :: r2 =>
        let fs := r2.takeWhile Char.isDigit
        if (r2.dropWhile Char.isDigit).head? = some 's' then
          some (intPart + natOfDigits fs / (10 : ℚ) ^ fs.length)
        else none
    | 's' :: _ => some intPart
    | _ => none

/-- `re.search(LIT + r'(\d+\.?\d*)s', msg)`: scan left to right for an
occurrence of the literal followed by a parseable number. -/
def searchDelay (lit : List Char) : List Char → Option ℚ
  | [] => none
  | c :: cs =>
      match afterLit lit (c :: cs) with
      | some rest =>
          match numThenS rest with
          | some q => some q
          | none => searchDelay lit cs
      | none => searchDelay lit cs

/-- `LLMClient._extract_retry_delay` (llm_client.py:65-74): try
`try again in (\d+\.?\d*)s`, then `after (\d+\.?\d*)s`, else the default. -/
def extractRetryDelay (retryDelay : ℚ) (msg : String) : ℚ :=
  match searchDelay "try again in ".toList msg.toList with
  | some q => q
  | none =>
      match searchDelay "after ".toList msg.toList with
      | some q => q
      | none => retryDelay

/-- How one gateway call ends: a response, the distinguished quota-exhaustion
error, or a fail-fast `LLMError` (llm_client.py:114, 120). -/
inductive GenOutcome where
  | ok (text : String)
  | quotaExhausted
  | llmError (msg : String)
deriving DecidableEq

/-- The delay slept before the retry after a rate-limited `attempt`
(llm_client.py:104-111): the delay extracted from the payload, except that a
value equal to the default is replaced by `retry_delay * (attempt + 1)`. -/
def retrySleep (retryDelay : ℚ) (attempt : Nat) (errLow : String) : ℚ :=
  let d := extractRetryDelay retryDelay errLow
  if d = retryDelay then retryDelay * (attempt + 1) else d

/-- The retry loop of `LLMClient.generate` (llm_client.py:76-120).
`backend attempt` is what `self.model.invoke` did on that attempt (`.error`
carries `str(e)`).  `left` is the number of retries still allowed, so
`attempt < max_retries` is `left > 0`; the returned list collects the sleeps.
Call with `attempt = 0`, `left = maxRetries`. -/
def generateGo (backend : Nat → Except String String) (retryDelay : ℚ) :
    Nat → Nat → List ℚ → GenOutcome × List ℚ
  | attempt, left, delays =>
      match backend attempt with
      | .ok t => (.ok t, delays)
      | .error e =>
          let errLow := lowerStr e
          if isRateLimitMsg errLow then
            match left with
            | 0 => (.quotaExhausted, delays)
            | left + 1 =>
                generateGo backend retryDelay (attempt + 1) left
                  (delays ++ [retrySleep retryDelay attempt errLow])
          else (.llmError ("Error generating response: " ++ e), delays)

/-- `LLMClient.generate`, returning the outcome and the sleeps performed. -/
def generate (maxRetries : Nat) (retryDelay : ℚ)
    (backend : Nat → Except String String) : GenOutcome × List ℚ :=
  generateGo backend retryDelay 0 maxRetries []

/-! ## Dictionary lemmas -/

theorem keys_append {α : Type} (l₁ l₂ : List (String × α)) :
    keys (l₁ ++ l₂) = keys l₁ ++ keys l₂ := by
  simp [keys]

theorem mem_keys_iff {α : Type} (l : List (String × α)) (k : String) :
    k ∈ keys l ↔ ∃ v, (k, v) ∈ l := by
  simp only [keys, List.mem_map]
  constructor
  · rintro ⟨⟨a, b⟩, hab, rfl⟩
    exact ⟨b, hab⟩
  · rintro ⟨v, hv⟩
    exact ⟨(k, v), hv, rfl⟩

theorem dinsert_of_not_mem {α : Type} {l : List (String × α)} {k : String}
    (v : α) (h : k ∉ keys l) : dinsert l k v = l ++ [(k, v)] := by
  have hany : ¬(l.any (fun x => x.1 = k) = true) := by
    rw [List.any_eq_true]
    rintro ⟨⟨a, b⟩, hab, hk⟩
    rw [decide_eq_true_eq] at hk
    exact h ((mem_keys_iff l k).mpr ⟨b, by rwa [show a = k from hk] at hab⟩)
  unfold dinsert
  rw [if_neg hany]

theorem mem_dinsert_ne {α : Type} (l : List (String × α)) (k fp : String)
    (v w : α) (hne : fp ≠ k) : (fp, w) ∈ dinsert l k v ↔ (fp, w) ∈ l := by
  unfold dinsert
  by_cases h : l.any (fun x => x.1 = k) = true
  · rw [if_pos h]
    constructor
    · intro hm
      rw [List.mem_map] at hm
      obtain ⟨⟨a, b⟩, hab, heq⟩ := hm
      dsimp only at heq
      by_cases hak : a = k
      · rw [if_pos hak] at heq
        exact absurd (congrArg Prod.fst heq).symm hne
      · rw [if_neg hak] at heq
        exact heq ▸ hab
    · intro hm
      rw [List.mem_map]
      exact ⟨(fp, w), hm, by rw [if_neg hne]⟩
  · rw [if_neg h, List.mem_append]
    constructor
    · rintro (h1 | h1)
      · exact h1
      · rw [List.mem_singleton] at h1
        exact absurd (congrArg Prod.fst h1) hne
    · exact Or.inl

theorem keys_dinsert_subset {α : Type} (l : List (String × α)) (k : String)
    (v : α) : ∀ x ∈ keys (dinsert l k v), x ∈ keys l ∨ x = k := by
  intro x hx
  unfold dinsert at hx
  by_cases h : l.any (fun x => x.1 = k) = true
  · rw [if_pos h] at hx
    simp only [keys, List.map_map, List.mem_map, Function.comp_apply] at hx
    obtain ⟨⟨a, b⟩, hab, heq⟩ := hx
    dsimp only at heq
    by_cases hak : a = k
    · right
      rw [if_pos hak] at heq
      exact heq.symm
    · left
      rw [if_neg hak] at heq
      exact (mem_keys_iff l x).mpr ⟨b, heq ▸ hab⟩
  · rw [if_neg h, keys_append, List.mem_append] at hx
    rcases hx with hx | hx
    · exact Or.inl hx
    · right; simpa [keys] using hx

theorem mem_keys_dinsert_self {α : Type} (l : List (String × α)) (k : String)
    (v : α) : k ∈ keys (dinsert l k v) := by
  unfold dinsert
  by_cases h : l.any (fun x => x.1 = k) = true
  · rw [if_pos h]
    rw [List.any_eq_true] at h
    obtain ⟨⟨a, b⟩, hab, hak⟩ := h
    rw [decide_eq_true_eq] at hak
    simp only [keys, List.map_map, List.mem_map, Function.comp_apply]
    refine ⟨(a, b), hab, ?_⟩
    dsimp only
    rw [if_pos hak]
  · rw [if_neg h, keys_append]
    simp [keys]

theorem mem_keys_dinsert_mono {α : Type} (l : List (String × α)) (k x : String)
    (v : α) (hx : x ∈ keys l) : x ∈ keys (dinsert l k v) := by
  unfold dinsert
  by_cases h : l.any (fun x => x.1 = k) = true
  · rw [if_pos h]
    simp only [keys, List.map_map, List.mem_map, Function.comp_apply]
    rw [mem_keys_iff] at hx
    obtain ⟨w, hw⟩ := hx
    by_cases hxk : x = k
    · refine ⟨(x, w), hw, ?_⟩
      dsimp only
      rw [if_pos hxk, hxk]
    · refine ⟨(x, w), hw, ?_⟩
      dsimp only
      rw [if_neg hxk]
  · rw [if_neg h, keys_append, List.mem_append]
    exact Or.inl hx

/-! ## Sub-phase lemmas

`exJoin` and `vpOut` read the `(pending, results, calls)` triple out of a
sub-phase result whether it ended normally or by quota unwind. -/

def exJoin {T : Type} : Except T T → T
  | .ok x => x
  | .error x => x

def vpOut {A R C : Type} : Except (A × R × C) (A × R × C × Bool) → A × R × C
  | .ok (p, r, c, _) => (p, r, c)
  | .error x => x

/-! Step lemmas unfolding one iteration of each sub-phase. -/

theorem fixPass_nil (FixO : String → Nat → FixOutcome) (iter : Nat)
    (kept : List (String × Analysis)) (res : List (String × FileRecord))
    (calls : List (String × Nat)) :
    fixPass FixO iter [] kept res calls = .ok (kept, res, calls) := rfl

theorem fixPass_cons_quota {FixO : String → Nat → FixOutcome} {iter : Nat}
    {q : String} (a : Analysis) (rest kept : List (String × Analysis))
    (res : List (String × FileRecord)) (calls : List (String × Nat))
    (hF : FixO q iter = .quota) :
    fixPass FixO iter ((q, a) :: rest) kept res calls =
      .error (kept ++ (q, a) :: rest, res, calls ++ [(q, iter)]) := by
  simp [fixPass, fixFile, hF]

theorem fixPass_cons_llm {FixO : String → Nat → FixOutcome} {iter : Nat}
    {q : String} {m : String} (a : Analysis) (rest kept : List (String × Analysis))
    (res : List (String × FileRecord)) (calls : List (String × Nat))
    (hF : FixO q iter = .llmError m) :
    fixPass FixO iter ((q, a) :: rest) kept res calls =
      fixPass FixO iter rest kept (dinsert res q (fixFailedRecord iter))
        (calls ++ [(q, iter)]) := by
  simp [fixPass, fixFile, hF]

theorem fixPass_cons_write {FixO : String → Nat → FixOutcome} {iter : Nat}
    {q : String} {m : String} (a : Analysis) (rest kept : List (String × Analysis))
    (res : List (String × FileRecord)) (calls : List (String × Nat))
    (hF : FixO q iter = .writeError m) :
    fixPass FixO iter ((q, a) :: rest) kept res calls =
      fixPass FixO iter rest kept (dinsert res q (fixFailedRecord iter))
        (calls ++ [(q, iter)]) := by
  simp [fixPass, fixFile, hF]

theorem fixPass_cons_ok {FixO : String → Nat → FixOutcome} {iter : Nat}
    {q : String} {ns : ℚ} (a : Analysis) (rest kept : List (String × Analysis))
    (res : List (String × FileRecord)) (calls : List (String × Nat))
    (hF : FixO q iter = .ok ns) :
    fixPass FixO iter ((q, a) :: rest) kept res calls =
      fixPass FixO iter rest (kept ++ [(q, a)]) res (calls ++ [(q, iter)]) := by
  simp [fixPass, fixFile, hF]

theorem valPass_nil (ValO : String → Nat → ValOutcome) (iter : Nat)
    (kept : List (String × Analysis)) (res : List (String × FileRecord))
    (calls : List (String × Nat)) (af : Bool) :
    valPass ValO iter [] kept res calls af = .ok (kept, res, calls, af) := rfl

theorem valPass_cons_quota {ValO : String → Nat → ValOutcome} {iter : Nat}
    {q : String} (a : Analysis) (rest kept : List (String × Analysis))
    (res : List (String × FileRecord)) (calls : List (String × Nat)) (af : Bool)
    (hV : ValO q iter = .quota) :
    valPass ValO iter ((q, a) :: rest) kept res calls af =
      .error (kept ++ (q, a) :: rest, res, calls ++ [(q, iter)]) := by
  simp [valPass, validateCode, hV]

theorem valPass_cons_pass {ValO : String → Nat → ValOutcome} {iter : Nat}
    {q : String} {tr : TestResults} (a : Analysis)
    (rest kept : List (String × Analysis)) (res : List (String × FileRecord))
    (calls : List (String × Nat)) (af : Bool)
    (hV : ValO q iter = .tests tr) (hp : tr.passed = true) :
    valPass ValO iter ((q, a) :: rest) kept res calls af =
      valPass ValO iter rest kept (dinsert res q (successRecord iter))
        (calls ++ [(q, iter)]) af := by
  simp [valPass, validateCode, hV, hp]

theorem valPass_cons_fail {ValO : String → Nat → ValOutcome} {iter : Nat}
    {q : String} {tr : TestResults} (a : Analysis)
    (rest kept : List (String × Analysis)) (res : List (String × FileRecord))
    (calls : List (String × Nat)) (af : Bool)
    (hV : ValO q iter = .tests tr) (hp : tr.passed = false) :
    valPass ValO iter ((q, a) :: rest) kept res calls af =
      valPass ValO iter rest
        (kept ++ [(q, addFeedback a (getFailureFeedback q ⟨tr.passed, none, some tr⟩))])
        res (calls ++ [(q, iter)]) true := by
  simp [valPass, validateCode, hV, hp]

theorem valPass_cons_genFailed {ValO : String → Nat → ValOutcome} {iter : Nat}
    {q : String} (a : Analysis) (rest kept : List (String × Analysis))
    (res : List (String × FileRecord)) (calls : List (String × Nat)) (af : Bool)
    (hV : ValO q iter = .genFailed) :
    valPass ValO iter ((q, a) :: rest) kept res calls af =
      valPass ValO iter rest
        (kept ++ [(q, addFeedback a
          (getFailureFeedback q ⟨false, some "Could not generate tests", none⟩))])
        res (calls ++ [(q, iter)]) true := by
  simp [valPass, validateCode, hV]

/-! Membership facts about appended call lists. -/

theorem mem_calls_snoc {fp q : String} {iter : Nat} (calls : List (String × Nat))
    (hfq : fp ≠ q) (j : Nat) :
    (fp, j) ∈ calls ++ [(q, iter)] ↔ (fp, j) ∈ calls := by
  rw [List.mem_append, List.mem_singleton]
  constructor
  · rintro (h1 | h1)
    · exact h1
    · exact absurd (congrArg Prod.fst h1) hfq
  · exact Or.inl

theorem not_mem_keys_snoc {α : Type} {fp q : String} (l : List (String × α))
    (b : α) (hl : fp ∉ keys l) (hfq : fp ≠ q) : fp ∉ keys (l ++ [(q, b)]) := by
  rw [keys_append, List.mem_append]
  rintro (h1 | h1)
  · exact hl h1
  · simp [keys] at h1
    exact hfq h1

theorem not_mem_keys_cons {α : Type} {fp q : String} {b : α}
    {l : List (String × α)} (h : fp ∉ keys ((q, b) :: l)) :
    fp ≠ q ∧ fp ∉ keys l := by
  constructor
  · intro hfq
    exact h (by simp [keys, hfq])
  · intro hmem
    exact h (by simp [keys] at hmem ⊢; exact Or.inr hmem)

/-- A file that is not pending when the repair sub-phase starts is untouched
by it: it stays non-pending, its `results` entries are unchanged, and no
`fix_file` call is issued for it. -/
theorem fixPass_preserve (FixO : String → Nat → FixOutcome) (iter : Nat)
    (todo kept : List (String × Analysis)) (res : List (String × FileRecord))
    (calls : List (String × Nat)) (fp : String)
    (hk : fp ∉ keys kept) (ht : fp ∉ keys todo) :
    fp ∉ keys (exJoin (fixPass FixO iter todo kept res calls)).1 ∧
    (∀ v, (fp, v) ∈ (exJoin (fixPass FixO iter todo kept res calls)).2.1 ↔ (fp, v) ∈ res) ∧
    (∀ j, (fp, j) ∈ (exJoin (fixPass FixO iter todo kept res calls)).2.2 ↔ (fp, j) ∈ calls) := by
  induction todo generalizing kept res calls with
  | nil =>
      rw [fixPass_nil]
      exact ⟨hk, fun v => Iff.rfl, fun j => Iff.rfl⟩
  | cons x rest ih =>
      obtain ⟨q, a⟩ := x
      obtain ⟨hfq, hrest⟩ := not_mem_keys_cons ht
      cases hF : FixO q iter with
      | quota =>
          rw [fixPass_cons_quota a rest kept res calls hF]
          refine ⟨?_, fun v => Iff.rfl, fun j => mem_calls_snoc calls hfq j⟩
          show fp ∉ keys (kept ++ (q, a) :: rest)
          rw [keys_append, List.mem_append]
          rintro (h1 | h1)
          · exact hk h1
          · simp [keys] at h1
            rcases h1 with h1 | h1
            · exact hfq h1
            · exact hrest (by simp [keys]; exact h1)
      | llmError m =>
          rw [fixPass_cons_llm a rest kept res calls hF]
          have := ih kept (dinsert res q (fixFailedRecord iter)) (calls ++ [(q, iter)]) hk hrest
          refine ⟨this.1, ?_, ?_⟩
          · intro v
            rw [this.2.1 v, mem_dinsert_ne res q fp (fixFailedRecord iter) v hfq]
          · intro j
            rw [this.2.2 j, mem_calls_snoc calls hfq j]
      | writeError m =>
          rw [fixPass_cons_write a rest kept res calls hF]
          have := ih kept (dinsert res q (fixFailedRecord iter)) (calls ++ [(q, iter)]) hk hrest
          refine ⟨this.1, ?_, ?_⟩
          · intro v
            rw [this.2.1 v, mem_dinsert_ne res q fp (fixFailedRecord iter) v hfq]
          · intro j
            rw [this.2.2 j, mem_calls_snoc calls hfq j]
      | ok ns =>
          rw [fixPass_cons_ok a rest kept res calls hF]
          have := ih (kept ++ [(q, a)]) res (calls ++ [(q, iter)])
            (not_mem_keys_snoc kept a hk hfq) hrest
          exact ⟨this.1, this.2.1, fun j => (this.2.2 j).trans (mem_calls_snoc calls hfq j)⟩

/-- The same preservation property for the validation sub-phase. -/
theorem valPass_preserve (ValO : String → Nat → ValOutcome) (iter : Nat)
    (todo kept : List (String × Analysis)) (res : List (String × FileRecord))
    (calls : List (String × Nat)) (af : Bool) (fp : String)
    (hk : fp ∉ keys kept) (ht : fp ∉ keys todo) :
    fp ∉ keys (vpOut (valPass ValO iter todo kept res calls af)).1 ∧
    (∀ v, (fp, v) ∈ (vpOut (valPass ValO iter todo kept res calls af)).2.1 ↔ (fp, v) ∈ res) ∧
    (∀ j, (fp, j) ∈ (vpOut (valPass ValO iter todo kept res calls af)).2.2 ↔ (fp, j) ∈ calls) := by
  induction todo generalizing kept res calls af with
  | nil =>
      rw [valPass_nil]
      exact ⟨hk, fun v => Iff.rfl, fun j => Iff.rfl⟩
  | cons x rest ih =>
      obtain ⟨q, a⟩ := x
      obtain ⟨hfq, hrest⟩ := not_mem_keys_cons ht
      cases hV : ValO q iter with
      | quota =>
          rw [valPass_cons_quota a rest kept res calls af hV]
          refine ⟨?_, fun v => Iff.rfl, fun j => mem_calls_snoc calls hfq j⟩
          show fp ∉ keys (kept ++ (q, a) :: rest)
          rw [keys_append, List.mem_append]
          rintro (h1 | h1)
          · exact hk h1
          · simp [keys] at h1
            rcases h1 with h1 | h1
            · exact hfq h1
            · exact hrest (by simp [keys]; exact h1)
      | genFailed =>
          rw [valPass_cons_genFailed a rest kept res calls af hV]
          have := ih (kept ++ [(q, addFeedback a
              (getFailureFeedback q ⟨false, some "Could not generate tests", none⟩))])
            res (calls ++ [(q, iter)]) true
            (not_mem_keys_snoc kept _ hk hfq) hrest
          exact ⟨this.1, this.2.1, fun j => (this.2.2 j).trans (mem_calls_snoc calls hfq j)⟩
      | tests tr =>
          cases hp : tr.passed with
          | true =>
              rw [valPass_cons_pass a rest kept res calls af hV hp]
              have := ih kept (dinsert res q (successRecord iter)) (calls ++ [(q, iter)]) af hk hrest
              refine ⟨this.1, ?_, ?_⟩
              · intro v
                rw [this.2.1 v, mem_dinsert_ne res q fp (successRecord iter) v hfq]
              · intro j
                rw [this.2.2 j, mem_calls_snoc calls hfq j]
          | false =>
              rw [valPass_cons_fail a rest kept res calls af hV hp]
              have := ih (kept ++ [(q, addFeedback a
                  (getFailureFeedback q ⟨tr.passed, none, some tr⟩))])
                res (calls ++ [(q, iter)]) true
                (not_mem_keys_snoc kept _ hk hfq) hrest
              exact ⟨this.1, this.2.1, fun j => (this.2.2 j).trans (mem_calls_snoc calls hfq j)⟩

/-- Every key of `res`, `kept` or `todo` survives the repair sub-phase inside
either the new `pending` or the new `results`, in both exit modes. -/
theorem fixPass_complete (FixO : String → Nat → FixOutcome) (iter : Nat)
    (todo kept : List (String × Analysis)) (res : List (String × FileRecord))
    (calls : List (String × Nat)) (x : String)
    (hx : x ∈ keys res ∨ x ∈ keys kept ∨ x ∈ keys todo) :
    x ∈ keys (exJoin (fixPass FixO iter todo kept res calls)).1 ∨
    x ∈ keys (exJoin (fixPass FixO iter todo kept res calls)).2.1 := by
  induction todo generalizing kept res calls with
  | nil =>
      rw [fixPass_nil]
      rcases hx with hx | hx | hx
      · exact Or.inr hx
      · exact Or.inl hx
      · simp [keys] at hx
  | cons y rest ih =>
      obtain ⟨q, a⟩ := y
      cases hF : FixO q iter with
      | quota =>
          rw [fixPass_cons_quota a rest kept res calls hF]
          rcases hx with hx | hx | hx
          · exact Or.inr hx
          · refine Or.inl ?_
            show x ∈ keys (kept ++ (q, a) :: rest)
            rw [keys_append, List.mem_append]
            exact Or.inl hx
          · refine Or.inl ?_
            show x ∈ keys (kept ++ (q, a) :: rest)
            rw [keys_append, List.mem_append]
            exact Or.inr hx
      | llmError m =>
          rw [fixPass_cons_llm a rest kept res calls hF]
          apply ih
          rcases hx with hx | hx | hx
          · exact Or.inl (mem_keys_dinsert_mono res q x (fixFailedRecord iter) hx)
          · exact Or.inr (Or.inl hx)
          · simp only [keys, List.map_cons, List.mem_cons] at hx
            rcases hx with hx | hx
            · exact Or.inl (hx ▸ mem_keys_dinsert_self res q (fixFailedRecord iter))
            · exact Or.inr (Or.inr hx)
      | writeError m =>
          rw [fixPass_cons_write a rest kept res calls hF]
          apply ih
          rcases hx with hx | hx | hx
          · exact Or.inl (mem_keys_dinsert_mono res q x (fixFailedRecord iter) hx)
          · exact Or.inr (Or.inl hx)
          · simp only [keys, List.map_cons, List.mem_cons] at hx
            rcases hx with hx | hx
            · exact Or.inl (hx ▸ mem_keys_dinsert_self res q (fixFailedRecord iter))
            · exact Or.inr (Or.inr hx)
      | ok ns =>
          rw [fixPass_cons_ok a rest kept res calls hF]
          apply ih
          rcases hx with hx | hx | hx
          · exact Or.inl hx
          · exact Or.inr (Or.inl (by rw [keys_append, List.mem_append]; exact Or.inl hx))
          · simp only [keys, List.map_cons, List.mem_cons] at hx
            rcases hx with hx | hx
            · refine Or.inr (Or.inl ?_)
              rw [keys_append, List.mem_append]
              right
              simp [keys, hx]
            · exact Or.inr (Or.inr hx)

/-- The same completeness property for the validation sub-phase. -/
theorem valPass_complete (ValO : String → Nat → ValOutcome) (iter : Nat)
    (todo kept : List (String × Analysis)) (res : List (String × FileRecord))
    (calls : List (String × Nat)) (af : Bool) (x : String)
    (hx : x ∈ keys res ∨ x ∈ keys kept ∨ x ∈ keys todo) :
    x ∈ keys (vpOut (valPass ValO iter todo kept res calls af)).1 ∨
    x ∈ keys (vpOut (valPass ValO iter todo kept res calls af)).2.1 := by
  induction todo generalizing kept res calls af with
  | nil =>
      rw [valPass_nil]
      rcases hx with hx | hx | hx
      · exact Or.inr hx
      · exact Or.inl hx
      · simp [keys] at hx
  | cons y rest ih =>
      obtain ⟨q, a⟩ := y
      cases hV : ValO q iter with
      | quota =>
          rw [valPass_cons_quota a rest kept res calls af hV]
          rcases hx with hx | hx | hx
          · exact Or.inr hx
          · refine Or.inl ?_
            show x ∈ keys (kept ++ (q, a) :: rest)
            rw [keys_append, List.mem_append]
            exact Or.inl hx
          · refine Or.inl ?_
            show x ∈ keys (kept ++ (q, a) :: rest)
            rw [keys_append, List.mem_append]
            exact Or.inr hx
      | genFailed =>
          rw [valPass_cons_genFailed a rest kept res calls af hV]
          apply ih
          rcases hx with hx | hx | hx
          · exact Or.inl hx
          · exact Or.inr (Or.inl (by rw [keys_append, List.mem_append]; exact Or.inl hx))
          · simp only [keys, List.map_cons, List.mem_cons] at hx
            rcases hx with hx | hx
            · refine Or.inr (Or.inl ?_)
              rw [keys_append, List.mem_append]
              right
              simp [keys, hx]
            · exact Or.inr (Or.inr hx)
      | tests tr =>
          cases hp : tr.passed with
          | true =>
              rw [valPass_cons_pass a rest kept res calls af hV hp]
              apply ih
              rcases hx with hx | hx | hx
              · exact Or.inl (mem_keys_dinsert_mono res q x (successRecord iter) hx)
              · exact Or.inr (Or.inl hx)
              · simp only [keys, List.map_cons, List.mem_cons] at hx
                rcases hx with hx | hx
                · exact Or.inl (hx ▸ mem_keys_dinsert_self res q (successRecord iter))
                · exact Or.inr (Or.inr hx)
          | false =>
              rw [valPass_cons_fail a rest kept res calls af hV hp]
              apply ih
              rcases hx with hx | hx | hx
              · exact Or.inl hx
              · exact Or.inr (Or.inl (by rw [keys_append, List.mem_append]; exact Or.inl hx))
              · simp only [keys, List.map_cons, List.mem_cons] at hx
                rcases hx with hx | hx
                · refine Or.inr (Or.inl ?_)
                  rw [keys_append, List.mem_append]
                  right
                  simp [keys, hx]
                · exact Or.inr (Or.inr hx)

/-! ## Key invariants: no duplicate keys, pending and results disjoint -/

/-- The dictionary invariant of the orchestrator: `pending` and `results`
have duplicate-free key sets and no key is in both. -/
def DictInv (p : List (String × Analysis)) (res : List (String × FileRecord)) : Prop :=
  (keys p).Nodup ∧ (keys res).Nodup ∧ ∀ k ∈ keys p, k ∉ keys res

instance (p : List (String × Analysis)) (res : List (String × FileRecord)) :
    Decidable (DictInv p res) := by
  unfold DictInv
  infer_instance

theorem keys_cons {α : Type} (q : String) (b : α) (l : List (String × α)) :
    keys ((q, b) :: l) = q :: keys l := rfl

theorem DictInv_keys_congr {p p' : List (String × Analysis)}
    {res : List (String × FileRecord)} (h : keys p = keys p')
    (hinv : DictInv p res) : DictInv p' res := by
  obtain ⟨h1, h2, h3⟩ := hinv
  exact ⟨h ▸ h1, h2, fun k hk => h3 k (h ▸ hk)⟩

/-- Moving the head of the snapshot to a terminal record keeps the
dictionary invariant. -/
theorem DictInv_remove_to_res (q : String) (a : Analysis)
    (rest kept : List (String × Analysis)) (res : List (String × FileRecord))
    (r : FileRecord) (hinv : DictInv (kept ++ (q, a) :: rest) res) :
    DictInv (kept ++ rest) (dinsert res q r) := by
  obtain ⟨h1, h2, h3⟩ := hinv
  have hq : q ∉ keys res := h3 q (by rw [keys_append, keys_cons]; simp)
  have hmid : q ∉ keys kept ++ keys rest ∧ (keys kept ++ keys rest).Nodup := by
    rw [keys_append, keys_cons] at h1
    exact List.nodup_cons.mp (List.nodup_middle.mp h1)
  rw [dinsert_of_not_mem _ hq]
  refine ⟨?_, ?_, ?_⟩
  · rw [keys_append]
    exact hmid.2
  · rw [keys_append, List.nodup_append]
    refine ⟨h2, by simp [keys], ?_⟩
    intro y hy
    simp only [keys, List.map_cons, List.map_nil, List.mem_singleton]
    intro hyq
    exact hq (hyq ▸ hy)
  · intro k hk
    rw [keys_append] at hk
    have hkq : k ≠ q := fun hkq => hmid.1 (hkq ▸ hk)
    have hkbig : k ∈ keys (kept ++ (q, a) :: rest) := by
      rw [keys_append, keys_cons]
      rw [List.mem_append] at hk ⊢
      rcases hk with hk | hk
      · exact Or.inl hk
      · exact Or.inr (List.mem_cons_of_mem _ hk)
    have hkres : k ∉ keys res := h3 k hkbig
    rw [keys_append, List.mem_append]
    rintro (hc | hc)
    · exact hkres hc
    · simp only [keys, List.map_cons, List.map_nil, List.mem_singleton] at hc
      exact hkq hc

/-- Keeping the head of the snapshot pending (with possibly new analysis
payload) keeps the dictionary invariant. -/
theorem DictInv_keep_head (q : String) (a b : Analysis)
    (rest kept : List (String × Analysis)) (res : List (String × FileRecord))
    (hinv : DictInv (kept ++ (q, a) :: rest) res) :
    DictInv ((kept ++ [(q, b)]) ++ rest) res := by
  apply DictInv_keys_congr (p := kept ++ (q, a) :: rest)
  · simp [keys]
  · exact hinv

theorem fixPass_inv (FixO : String → Nat → FixOutcome) (iter : Nat)
    (todo kept : List (String × Analysis)) (res : List (String × FileRecord))
    (calls : List (String × Nat))
    (hinv : DictInv (kept ++ todo) res) :
    DictInv (exJoin (fixPass FixO iter todo kept res calls)).1
      (exJoin (fixPass FixO iter todo kept res calls)).2.1 := by
  induction todo generalizing kept res calls with
  | nil =>
      rw [fixPass_nil]
      simpa using hinv
  | cons x rest ih =>
      obtain ⟨q, a⟩ := x
      cases hF : FixO q iter with
      | quota =>
          rw [fixPass_cons_quota a rest kept res calls hF]
          exact hinv
      | llmError m =>
          rw [fixPass_cons_llm a rest kept res calls hF]
          exact ih kept _ _ (DictInv_remove_to_res q a rest kept res _ hinv)
      | writeError m =>
          rw [fixPass_cons_write a rest kept res calls hF]
          exact ih kept _ _ (DictInv_remove_to_res q a rest kept res _ hinv)
      | ok ns =>
          rw [fixPass_cons_ok a rest kept res calls hF]
          apply ih
          rw [List.append_assoc]
          exact hinv

theorem valPass_inv (ValO : String → Nat → ValOutcome) (iter : Nat)
    (todo kept : List (String × Analysis)) (res : List (String × FileRecord))
    (calls : List (String × Nat)) (af : Bool)
    (hinv : DictInv (kept ++ todo) res) :
    DictInv (vpOut (valPass ValO iter todo kept res calls af)).1
      (vpOut (valPass ValO iter todo kept res calls af)).2.1 := by
  induction todo generalizing kept res calls af with
  | nil =>
      rw [valPass_nil]
      simpa using hinv
  | cons x rest ih =>
      obtain ⟨q, a⟩ := x
      cases hV : ValO q iter with
      | quota =>
          rw [valPass_cons_quota a rest kept res calls af hV]
          exact hinv
      | genFailed =>
          rw [valPass_cons_genFailed a rest kept res calls af hV]
          exact ih _ _ _ _ (DictInv_keep_head q a _ rest kept res hinv)
      | tests tr =>
          cases hp : tr.passed with
          | true =>
              rw [valPass_cons_pass a rest kept res calls af hV hp]
              exact ih kept _ _ _ (DictInv_remove_to_res q a rest kept res _ hinv)
          | false =>
              rw [valPass_cons_fail a rest kept res calls af hV hp]
              exact ih _ _ _ _ (DictInv_keep_head q a _ rest kept res hinv)

/-! ## Record well-formedness

Every record the orchestrator ever writes ties `validated` and `improved` to
its status: `validated` holds exactly for `success` and `no_fix_needed`
records, `improved` exactly for `success` records. -/

def wfRecord (r : FileRecord) : Prop :=
  r.validated = (decide (r.status = .success) || decide (r.status = .no_fix_needed)) ∧
  r.improved = decide (r.status = .success)

theorem wf_noFixRecord (s : ℚ) : wfRecord (noFixRecord s) := by
  simp [wfRecord, noFixRecord]

theorem wf_fixFailedRecord (iter : Nat) : wfRecord (fixFailedRecord iter) := by
  simp [wfRecord, fixFailedRecord]

theorem wf_successRecord (iter : Nat) : wfRecord (successRecord iter) := by
  simp [wfRecord, successRecord]

theorem wf_quotaRecord : wfRecord quotaRecord := by
  simp [wfRecord, quotaRecord]

theorem wf_maxIterRecord (mi : Nat) : wfRecord (maxIterRecord mi) := by
  simp [wfRecord, maxIterRecord]

theorem wf_dinsert {l : List (String × FileRecord)} {k : String}
    {v : FileRecord} (hl : ∀ x ∈ l, wfRecord x.2) (hv : wfRecord v) :
    ∀ x ∈ dinsert l k v, wfRecord x.2 := by
  intro x hx
  unfold dinsert at hx
  by_cases h : l.any (fun x => x.1 = k) = true
  · rw [if_pos h, List.mem_map] at hx
    obtain ⟨y, hy, heq⟩ := hx
    by_cases hyk : y.1 = k
    · rw [if_pos hyk] at heq
      rw [← heq]
      exact hv
    · rw [if_neg hyk] at heq
      exact heq ▸ hl y hy
  · rw [if_neg h, List.mem_append] at hx
    rcases hx with hx | hx
    · exact hl x hx
    · rw [List.mem_singleton] at hx
      rw [hx]
      exact hv

theorem fixPass_wf (FixO : String → Nat → FixOutcome) (iter : Nat)
    (todo kept : List (String × Analysis)) (res : List (String × FileRecord))
    (calls : List (String × Nat)) (hres : ∀ x ∈ res, wfRecord x.2) :
    ∀ x ∈ (exJoin (fixPass FixO iter todo kept res calls)).2.1, wfRecord x.2 := by
  induction todo generalizing kept res calls with
  | nil =>
      rw [fixPass_nil]
      exact hres
  | cons y rest ih =>
      obtain ⟨q, a⟩ := y
      cases hF : FixO q iter with
      | quota =>
          rw [fixPass_cons_quota a rest kept res calls hF]
          exact hres
      | llmError m =>
          rw [fixPass_cons_llm a rest kept res calls hF]
          exact ih kept _ _ (wf_dinsert hres (wf_fixFailedRecord iter))
      | writeError m =>
          rw [fixPass_cons_write a rest kept res calls hF]
          exact ih kept _ _ (wf_dinsert hres (wf_fixFailedRecord iter))
      | ok ns =>
          rw [fixPass_cons_ok a rest kept res calls hF]
          exact ih _ res _ hres

theorem valPass_wf (ValO : String → Nat → ValOutcome) (iter : Nat)
    (todo kept : List (String × Analysis)) (res : List (String × FileRecord))
    (calls : List (String × Nat)) (af : Bool) (hres : ∀ x ∈ res, wfRecord x.2) :
    ∀ x ∈ (vpOut (valPass ValO iter todo kept res calls af)).2.1, wfRecord x.2 := by
  induction todo generalizing kept res calls af with
  | nil =>
      rw [valPass_nil]
      exact hres
  | cons y rest ih =>
      obtain ⟨q, a⟩ := y
      cases hV : ValO q iter with
      | quota =>
          rw [valPass_cons_quota a rest kept res calls af hV]
          exact hres
      | genFailed =>
          rw [valPass_cons_genFailed a rest kept res calls af hV]
          exact ih _ res _ _ hres
      | tests tr =>
          cases hp : tr.passed with
          | true =>
              rw [valPass_cons_pass a rest kept res calls af hV hp]
              exact ih kept _ _ _ (wf_dinsert hres (wf_successRecord iter))
          | false =>
              rw [valPass_cons_fail a rest kept res calls af hV hp]
              exact ih _ res _ _ hres

/-! ## Loop-level lemmas -/

theorem runLoop_zero (FixO : String → Nat → FixOutcome)
    (ValO : String → Nat → ValOutcome) (mi : Nat)
    (p : List (String × Analysis)) (res : List (String × FileRecord))
    (fc vc : List (String × Nat)) :
    runLoop FixO ValO mi 0 p res fc vc = ⟨p, res, fc, vc, false⟩ := rfl

theorem runLoop_succ_empty (FixO : String → Nat → FixOutcome)
    (ValO : String → Nat → ValOutcome) (mi k : Nat)
    (p : List (String × Analysis)) (res : List (String × FileRecord))
    (fc vc : List (String × Nat)) (hpe : p.isEmpty = true) :
    runLoop FixO ValO mi (k + 1) p res fc vc = ⟨p, res, fc, vc, false⟩ := by
  simp [runLoop, hpe]

theorem runLoop_succ_quotafix (FixO : String → Nat → FixOutcome)
    (ValO : String → Nat → ValOutcome) (mi k : Nat)
    (p pq : List (String × Analysis)) (res resq : List (String × FileRecord))
    (fc fcq vc : List (String × Nat)) (hpe : p.isEmpty = false)
    (hfp : fixPass FixO (mi - k) p [] res fc = .error (pq, resq, fcq)) :
    runLoop FixO ValO mi (k + 1) p res fc vc = ⟨pq, resq, fcq, vc, true⟩ := by
  simp [runLoop, hpe, hfp]

theorem runLoop_succ_quotaval (FixO : String → Nat → FixOutcome)
    (ValO : String → Nat → ValOutcome) (mi k : Nat)
    (p p1 pq : List (String × Analysis)) (res res1 resq : List (String × FileRecord))
    (fc fc1 vc vcq : List (String × Nat)) (hpe : p.isEmpty = false)
    (hfp : fixPass FixO (mi - k) p [] res fc = .ok (p1, res1, fc1))
    (hvp : valPass ValO (mi - k) p1 [] res1 vc false = .error (pq, resq, vcq)) :
    runLoop FixO ValO mi (k + 1) p res fc vc = ⟨pq, resq, fc1, vcq, true⟩ := by
  simp [runLoop, hpe, hfp, hvp]

theorem runLoop_succ_next (FixO : String → Nat → FixOutcome)
    (ValO : String → Nat → ValOutcome) (mi k : Nat)
    (p p1 p2 : List (String × Analysis)) (res res1 res2 : List (String × FileRecord))
    (fc fc1 vc vc2 : List (String × Nat)) (hpe : p.isEmpty = false)
    (hfp : fixPass FixO (mi - k) p [] res fc = .ok (p1, res1, fc1))
    (hvp : valPass ValO (mi - k) p1 [] res1 vc false = .ok (p2, res2, vc2, true)) :
    runLoop FixO ValO mi (k + 1) p res fc vc = runLoop FixO ValO mi k p2 res2 fc1 vc2 := by
  simp [runLoop, hpe, hfp, hvp]

theorem runLoop_succ_conv (FixO : String → Nat → FixOutcome)
    (ValO : String → Nat → ValOutcome) (mi k : Nat)
    (p p1 p2 : List (String × Analysis)) (res res1 res2 : List (String × FileRecord))
    (fc fc1 vc vc2 : List (String × Nat)) (hpe : p.isEmpty = false)
    (hfp : fixPass FixO (mi - k) p [] res fc = .ok (p1, res1, fc1))
    (hvp : valPass ValO (mi - k) p1 [] res1 vc false = .ok (p2, res2, vc2, false)) :
    runLoop FixO ValO mi (k + 1) p res fc vc = ⟨p2, res2, fc1, vc2, false⟩ := by
  simp [runLoop, hpe, hfp, hvp]

/-- A file that is not pending when the loop starts is untouched by the whole
loop: it never re-enters `pending`, its `results` entries are unchanged, and
it is never repaired or validated. -/
theorem runLoop_preserve (FixO : String → Nat → FixOutcome)
    (ValO : String → Nat → ValOutcome) (mi : Nat) (k : Nat)
    (p : List (String × Analysis)) (res : List (String × FileRecord))
    (fc vc : List (String × Nat)) (fp : String) (hp : fp ∉ keys p) :
    fp ∉ keys (runLoop FixO ValO mi k p res fc vc).pending ∧
    (∀ v, (fp, v) ∈ (runLoop FixO ValO mi k p res fc vc).results ↔ (fp, v) ∈ res) ∧
    (∀ j, (fp, j) ∈ (runLoop FixO ValO mi k p res fc vc).fixCalls ↔ (fp, j) ∈ fc) ∧
    (∀ j, (fp, j) ∈ (runLoop FixO ValO mi k p res fc vc).valCalls ↔ (fp, j) ∈ vc) := by
  induction k generalizing p res fc vc with
  | zero =>
      rw [runLoop_zero]
      exact ⟨hp, fun v => Iff.rfl, fun j => Iff.rfl, fun j => Iff.rfl⟩
  | succ k ih =>
      by_cases hpe : p.isEmpty = true
      · rw [runLoop_succ_empty FixO ValO mi k p res fc vc hpe]
        exact ⟨hp, fun v => Iff.rfl, fun j => Iff.rfl, fun j => Iff.rfl⟩
      · have hpe' : p.isEmpty = false := by revert hpe; cases p.isEmpty <;> simp
        have hfix := fixPass_preserve FixO (mi - k) p [] res fc fp (by simp [keys]) hp
        cases hfp : fixPass FixO (mi - k) p [] res fc with
        | error t =>
            obtain ⟨pq, resq, fcq⟩ := t
            rw [hfp] at hfix
            rw [runLoop_succ_quotafix FixO ValO mi k p pq res resq fc fcq vc hpe' hfp]
            exact ⟨hfix.1, hfix.2.1, hfix.2.2, fun j => Iff.rfl⟩
        | ok t =>
            obtain ⟨p1, res1, fc1⟩ := t
            rw [hfp] at hfix
            have hval := valPass_preserve ValO (mi - k) p1 [] res1 vc false fp
              (by simp [keys]) hfix.1
            cases hvp : valPass ValO (mi - k) p1 [] res1 vc false with
            | error u =>
                obtain ⟨pq, resq, vcq⟩ := u
                rw [hvp] at hval
                rw [runLoop_succ_quotaval FixO ValO mi k p p1 pq res res1 resq
                  fc fc1 vc vcq hpe' hfp hvp]
                exact ⟨hval.1,
                  fun v => (hval.2.1 v).trans (hfix.2.1 v),
                  hfix.2.2,
                  hval.2.2⟩
            | ok u =>
                obtain ⟨p2, res2, vc2, af⟩ := u
                rw [hvp] at hval
                cases af with
                | true =>
                    have hrec := ih p2 res2 fc1 vc2 hval.1
                    rw [runLoop_succ_next FixO ValO mi k p p1 p2 res res1 res2
                      fc fc1 vc vc2 hpe' hfp hvp]
                    exact ⟨hrec.1,
                      fun v => (hrec.2.1 v).trans ((hval.2.1 v).trans (hfix.2.1 v)),
                      fun j => (hrec.2.2.1 j).trans (hfix.2.2 j),
                      fun j => (hrec.2.2.2 j).trans (hval.2.2 j)⟩
                | false =>
                    rw [runLoop_succ_conv FixO ValO mi k p p1 p2 res res1 res2
                      fc fc1 vc vc2 hpe' hfp hvp]
                    exact ⟨hval.1,
                      fun v => (hval.2.1 v).trans (hfix.2.1 v),
                      hfix.2.2,
                      hval.2.2⟩

/-- Every key that is pending or terminal when the loop starts is pending or
terminal when it exits, whichever way it exits. -/
theorem runLoop_complete (FixO : String → Nat → FixOutcome)
    (ValO : String → Nat → ValOutcome) (mi : Nat) (k : Nat)
    (p : List (String × Analysis)) (res : List (String × FileRecord))
    (fc vc : List (String × Nat)) (x : String)
    (hx : x ∈ keys p ∨ x ∈ keys res) :
    x ∈ keys (runLoop FixO ValO mi k p res fc vc).pending ∨
    x ∈ keys (runLoop FixO ValO mi k p res fc vc).results := by
  induction k generalizing p res fc vc with
  | zero =>
      rw [runLoop_zero]
      exact hx
  | succ k ih =>
      by_cases hpe : p.isEmpty = true
      · rw [runLoop_succ_empty FixO ValO mi k p res fc vc hpe]
        exact hx
      · have hpe' : p.isEmpty = false := by revert hpe; cases p.isEmpty <;> simp
        have hfix := fixPass_complete FixO (mi - k) p [] res fc x
          (by rcases hx with hx | hx
              · exact Or.inr (Or.inr hx)
              · exact Or.inl hx)
        cases hfp : fixPass FixO (mi - k) p [] res fc with
        | error t =>
            obtain ⟨pq, resq, fcq⟩ := t
            rw [hfp] at hfix
            rw [runLoop_succ_quotafix FixO ValO mi k p pq res resq fc fcq vc hpe' hfp]
            exact hfix
        | ok t =>
            obtain ⟨p1, res1, fc1⟩ := t
            rw [hfp] at hfix
            have hval := valPass_complete ValO (mi - k) p1 [] res1 vc false x
              (by rcases hfix with hfix | hfix
                  · exact Or.inr (Or.inr hfix)
                  · exact Or.inl hfix)
            cases hvp : valPass ValO (mi - k) p1 [] res1 vc false with
            | error u =>
                obtain ⟨pq, resq, vcq⟩ := u
                rw [hvp] at hval
                rw [runLoop_succ_quotaval FixO ValO mi k p p1 pq res res1 resq
                  fc fc1 vc vcq hpe' hfp hvp]
                exact hval
            | ok u =>
                obtain ⟨p2, res2, vc2, af⟩ := u
                rw [hvp] at hval
                cases af with
                | true =>
                    rw [runLoop_succ_next FixO ValO mi k p p1 p2 res res1 res2
                      fc fc1 vc vc2 hpe' hfp hvp]
                    exact ih p2 res2 fc1 vc2 hval
                | false =>
                    rw [runLoop_succ_conv FixO ValO mi k p p1 p2 res res1 res2
                      fc fc1 vc vc2 hpe' hfp hvp]
                    exact hval

/-- The dictionary invariant is preserved by the whole loop. -/
theorem runLoop_inv (FixO : String → Nat → FixOutcome)
    (ValO : String → Nat → ValOutcome) (mi : Nat) (k : Nat)
    (p : List (String × Analysis)) (res : List (String × FileRecord))
    (fc vc : List (String × Nat)) (hinv : DictInv p res) :
    DictInv (runLoop FixO ValO mi k p res fc vc).pending
      (runLoop FixO ValO mi k p res fc vc).results := by
  induction k generalizing p res fc vc with
  | zero =>
      rw [runLoop_zero]
      exact hinv
  | succ k ih =>
      by_cases hpe : p.isEmpty = true
      · rw [runLoop_succ_empty FixO ValO mi k p res fc vc hpe]
        exact hinv
      · have hpe' : p.isEmpty = false := by revert hpe; cases p.isEmpty <;> simp
        have hfix := fixPass_inv FixO (mi - k) p [] res fc hinv
        cases hfp : fixPass FixO (mi - k) p [] res fc with
        | error t =>
            obtain ⟨pq, resq, fcq⟩ := t
            rw [hfp] at hfix
            rw [runLoop_succ_quotafix FixO ValO mi k p pq res resq fc fcq vc hpe' hfp]
            exact hfix
        | ok t =>
            obtain ⟨p1, res1, fc1⟩ := t
            rw [hfp] at hfix
            have hval := valPass_inv ValO (mi - k) p1 [] res1 vc false hfix
            cases hvp : valPass ValO (mi - k) p1 [] res1 vc false with
            | error u =>
                obtain ⟨pq, resq, vcq⟩ := u
                rw [hvp] at hval
                rw [runLoop_succ_quotaval FixO ValO mi k p p1 pq res res1 resq
                  fc fc1 vc vcq hpe' hfp hvp]
                exact hval
            | ok u =>
                obtain ⟨p2, res2, vc2, af⟩ := u
                rw [hvp] at hval
                cases af with
                | true =>
                    rw [runLoop_succ_next FixO ValO mi k p p1 p2 res res1 res2
                      fc fc1 vc vc2 hpe' hfp hvp]
                    exact ih p2 res2 fc1 vc2 hval
                | false =>
                    rw [runLoop_succ_conv FixO ValO mi k p p1 p2 res res1 res2
                      fc fc1 vc vc2 hpe' hfp hvp]
                    exact hval

/-- Record well-formedness is preserved by the whole loop. -/
theorem runLoop_wf (FixO : String → Nat → FixOutcome)
    (ValO : String → Nat → ValOutcome) (mi : Nat) (k : Nat)
    (p : List (String × Analysis)) (res : List (String × FileRecord))
    (fc vc : List (String × Nat)) (hres : ∀ x ∈ res, wfRecord x.2) :
    ∀ x ∈ (runLoop FixO ValO mi k p res fc vc).results, wfRecord x.2 := by
  induction k generalizing p res fc vc with
  | zero =>
      rw [runLoop_zero]
      exact hres
  | succ k ih =>
      by_cases hpe : p.isEmpty = true
      · rw [runLoop_succ_empty FixO ValO mi k p res fc vc hpe]
        exact hres
      · have hpe' : p.isEmpty = false := by revert hpe; cases p.isEmpty <;> simp
        have hfix := fixPass_wf FixO (mi - k) p [] res fc hres
        cases hfp : fixPass FixO (mi - k) p [] res fc with
        | error t =>
            obtain ⟨pq, resq, fcq⟩ := t
            rw [hfp] at hfix
            rw [runLoop_succ_quotafix FixO ValO mi k p pq res resq fc fcq vc hpe' hfp]
            exact hfix
        | ok t =>
            obtain ⟨p1, res1, fc1⟩ := t
            rw [hfp] at hfix
            have hval := valPass_wf ValO (mi - k) p1 [] res1 vc false hfix
            cases hvp : valPass ValO (mi - k) p1 [] res1 vc false with
            | error u =>
                obtain ⟨pq, resq, vcq⟩ := u
                rw [hvp] at hval
                rw [runLoop_succ_quotaval FixO ValO mi k p p1 pq res res1 resq
                  fc fc1 vc vcq hpe' hfp hvp]
                exact hval
            | ok u =>
                obtain ⟨p2, res2, vc2, af⟩ := u
                rw [hvp] at hval
                cases af with
                | true =>
                    rw [runLoop_succ_next FixO ValO mi k p p1 p2 res res1 res2
                      fc fc1 vc vc2 hpe' hfp hvp]
                    exact ih p2 res2 fc1 vc2 hval
                | false =>
                    rw [runLoop_succ_conv FixO ValO mi k p p1 p2 res res1 res2
                      fc fc1 vc vc2 hpe' hfp hvp]
                    exact hval

/-! ## markAll lemmas -/

theorem markAll_of_inv (p : List (String × Analysis))
    (res : List (String × FileRecord)) (r : FileRecord) (hinv : DictInv p res) :
    markAll p res r = res ++ p.map (fun x => (x.1, r)) := by
  induction p generalizing res with
  | nil => simp [markAll]
  | cons x rest ih =>
      obtain ⟨q, a⟩ := x
      have hq : q ∉ keys res := hinv.2.2 q (by rw [keys_cons]; simp)
      have hinv' : DictInv rest (dinsert res q r) :=
        DictInv_remove_to_res q a rest [] res r hinv
      show markAll rest (dinsert res q r) r = _
      rw [ih (dinsert res q r) hinv', dinsert_of_not_mem _ hq]
      simp

theorem markAll_preserve (p : List (String × Analysis))
    (res : List (String × FileRecord)) (r : FileRecord) (fp : String)
    (hp : fp ∉ keys p) (v : FileRecord) :
    (fp, v) ∈ markAll p res r ↔ (fp, v) ∈ res := by
  induction p generalizing res with
  | nil => exact Iff.rfl
  | cons x rest ih =>
      obtain ⟨q, a⟩ := x
      obtain ⟨hfq, hrest⟩ := not_mem_keys_cons hp
      show (fp, v) ∈ markAll rest (dinsert res q r) r ↔ _
      rw [ih (dinsert res q r) hrest, mem_dinsert_ne res q fp r v hfq]

theorem markAll_complete (p : List (String × Analysis))
    (res : List (String × FileRecord)) (r : FileRecord) (x : String)
    (hx : x ∈ keys p ∨ x ∈ keys res) : x ∈ keys (markAll p res r) := by
  induction p generalizing res with
  | nil =>
      rcases hx with hx | hx
      · simp [keys] at hx
      · exact hx
  | cons y rest ih =>
      obtain ⟨q, a⟩ := y
      show x ∈ keys (markAll rest (dinsert res q r) r)
      rcases hx with hx | hx
      · rw [keys_cons] at hx
        rcases List.mem_cons.mp hx with hx | hx
        · exact ih (dinsert res q r) (Or.inr (hx ▸ mem_keys_dinsert_self res q r))
        · exact ih (dinsert res q r) (Or.inl hx)
      · exact ih (dinsert res q r) (Or.inr (mem_keys_dinsert_mono res q x r hx))

theorem markAll_wf (p : List (String × Analysis))
    (res : List (String × FileRecord)) (r : FileRecord)
    (hres : ∀ x ∈ res, wfRecord x.2) (hr : wfRecord r) :
    ∀ x ∈ markAll p res r, wfRecord x.2 := by
  induction p generalizing res with
  | nil => exact hres
  | cons y rest ih =>
      obtain ⟨q, a⟩ := y
      show ∀ x ∈ markAll rest (dinsert res q r) r, wfRecord x.2
      exact ih (dinsert res q r) (wf_dinsert hres hr)

/-! ## Partition lemmas -/

/-- With fresh, duplicate-free filepaths, the Phase-1 partition is exactly a
split of the analyses by `needs_refactoring`. -/
theorem partFold_char (l : List Analysis)
    (st : List (String × Analysis) × List (String × FileRecord))
    (hfresh : ∀ a ∈ l, a.filepath ∉ keys st.1 ∧ a.filepath ∉ keys st.2)
    (hnd : (l.map Analysis.filepath).Nodup) :
    l.foldl partStep st =
      (st.1 ++ (l.filter (fun a => a.needs)).map (fun a => (a.filepath, a)),
       st.2 ++ (l.filter (fun a => !a.needs)).map
         (fun a => (a.filepath, noFixRecord a.pylint.score))) := by
  induction l generalizing st with
  | nil => simp
  | cons a rest ih =>
      obtain ⟨hf1, hf2⟩ := hfresh a (List.mem_cons_self a rest)
      rw [List.map_cons, List.nodup_cons] at hnd
      cases hn : a.needs with
      | true =>
          have hstep : partStep st a = (st.1 ++ [(a.filepath, a)], st.2) := by
            rw [partStep, if_pos hn, dinsert_of_not_mem _ hf1]
          rw [List.foldl_cons, hstep, ih]
          · simp [List.filter_cons, hn]
          · intro b hb
            refine ⟨?_, (hfresh b (List.mem_cons_of_mem a hb)).2⟩
            rw [keys_append, List.mem_append]
            rintro (hc | hc)
            · exact (hfresh b (List.mem_cons_of_mem a hb)).1 hc
            · simp only [keys, List.map_cons, List.map_nil, List.mem_singleton] at hc
              exact hnd.1 (hc ▸ List.mem_map_of_mem Analysis.filepath hb)
          · exact hnd.2
      | false =>
          have hstep : partStep st a =
              (st.1, st.2 ++ [(a.filepath, noFixRecord a.pylint.score)]) := by
            rw [partStep, if_neg (by rw [hn]; exact Bool.false_ne_true), dinsert_of_not_mem _ hf2]
          rw [List.foldl_cons, hstep, ih]
          · simp [List.filter_cons, hn]
          · intro b hb
            refine ⟨(hfresh b (List.mem_cons_of_mem a hb)).1, ?_⟩
            rw [keys_append, List.mem_append]
            rintro (hc | hc)
            · exact (hfresh b (List.mem_cons_of_mem a hb)).2 hc
            · simp only [keys, List.map_cons, List.map_nil, List.mem_singleton] at hc
              exact hnd.1 (hc ▸ List.mem_map_of_mem Analysis.filepath hb)
          · exact hnd.2

theorem partitionAnalyses_char (analyses : List Analysis)
    (hnd : (analyses.map Analysis.filepath).Nodup) :
    partitionAnalyses analyses =
      ((analyses.filter (fun a => a.needs)).map (fun a => (a.filepath, a)),
       (analyses.filter (fun a => !a.needs)).map
         (fun a => (a.filepath, noFixRecord a.pylint.score))) := by
  unfold partitionAnalyses
  rw [partFold_char analyses ([], []) (by simp [keys]) hnd]
  simp

theorem keys_map_pending (l : List Analysis) :
    keys (l.map (fun a => (a.filepath, a))) = l.map Analysis.filepath := by
  simp [keys]

theorem keys_map_noFix (l : List Analysis) :
    keys (l.map (fun a => (a.filepath, noFixRecord a.pylint.score))) =
      l.map Analysis.filepath := by
  simp [keys]

/-- The partition output satisfies the dictionary invariant when the analyses
have duplicate-free filepaths. -/
theorem partitionAnalyses_inv (analyses : List Analysis)
    (hnd : (analyses.map Analysis.filepath).Nodup) :
    DictInv (partitionAnalyses analyses).1 (partitionAnalyses analyses).2 := by
  rw [partitionAnalyses_char analyses hnd]
  refine ⟨?_, ?_, ?_⟩
  · rw [keys_map_pending]
    exact ((List.filter_sublist analyses).map Analysis.filepath).nodup hnd
  · rw [keys_map_noFix]
    exact ((List.filter_sublist analyses).map Analysis.filepath).nodup hnd
  · intro k hk hk2
    rw [keys_map_pending] at hk
    rw [keys_map_noFix] at hk2
    obtain ⟨a, ha, hafp⟩ := List.mem_map.mp hk
    obtain ⟨b, hb, hbfp⟩ := List.mem_map.mp hk2
    obtain ⟨ha1, ha2⟩ := List.mem_filter.mp ha
    obtain ⟨hb1, hb2⟩ := List.mem_filter.mp hb
    have hab : a = b :=
      List.inj_on_of_nodup_map hnd ha1 hb1 (by rw [hafp, hbfp])
    rw [hab] at ha2
    rw [ha2] at hb2
    simp at hb2

theorem partitionAnalyses_wf (analyses : List Analysis)
    (hnd : (analyses.map Analysis.filepath).Nodup) :
    ∀ x ∈ (partitionAnalyses analyses).2, wfRecord x.2 := by
  rw [partitionAnalyses_char analyses hnd]
  intro x hx
  simp only [List.mem_map] at hx
  obtain ⟨a, _, ha⟩ := hx
  rw [← ha]
  exact wf_noFixRecord _

/-! ## Phase-1 plan lemmas -/

theorem analyzeFile_quota_iff (PyO : String → PylintResult)
    (AO : String → AnalyzeOutcome) (f : String) :
    analyzeFile PyO AO f = .error .quota ↔ AO f = .quota := by
  cases h : AO f <;> simp [analyzeFile, h]

theorem analyzeFile_filepath (PyO : String → PylintResult)
    (AO : String → AnalyzeOutcome) (f : String) (a : Analysis)
    (h : analyzeFile PyO AO f = .ok a) : a.filepath = f := by
  cases hA : AO f with
  | quota => simp [analyzeFile, hA] at h
  | otherError => simp [analyzeFile, hA] at h
  | llmError m =>
      simp only [analyzeFile, hA, Except.ok.injEq] at h
      rw [← h]
  | ok r =>
      simp only [analyzeFile, hA, Except.ok.injEq] at h
      rw [← h]

/-- With no quota signal in sight, `create_refactoring_plan` returns exactly
the analyses of the files whose `analyze_file` did not raise. -/
theorem planAux_noquota (PyO : String → PylintResult)
    (AO : String → AnalyzeOutcome) (fs : List String) (acc : List Analysis)
    (hq : ∀ f ∈ fs, AO f ≠ .quota) :
    planAux PyO AO fs acc =
      .ok (acc ++ fs.filterMap (fun f => (analyzeFile PyO AO f).toOption)) := by
  induction fs generalizing acc with
  | nil => simp [planAux]
  | cons f rest ih =>
      have hqf : AO f ≠ .quota := hq f (List.mem_cons_self f rest)
      have hqr : ∀ g ∈ rest, AO g ≠ .quota := fun g hg => hq g (List.mem_cons_of_mem f hg)
      cases hA : AO f with
      | quota => exact absurd hA hqf
      | otherError =>
          have hAF : analyzeFile PyO AO f = .error .generic := by
            rw [analyzeFile, hA]
          rw [show planAux PyO AO (f :: rest) acc = planAux PyO AO rest acc from by
            rw [planAux, hAF]]
          rw [ih acc hqr, List.filterMap_cons, hAF]
          simp [Except.toOption]
      | llmError m =>
          have hAF : analyzeFile PyO AO f =
              .ok ⟨f, PyO f, "LLM error: " ++ m ++ " - Please check your API quota.",
                   needsRefactoring (PyO f), some m⟩ := by
            rw [analyzeFile, hA]
          rw [show planAux PyO AO (f :: rest) acc = planAux PyO AO rest (acc ++
              [⟨f, PyO f, "LLM error: " ++ m ++ " - Please check your API quota.",
                needsRefactoring (PyO f), some m⟩]) from by
            rw [planAux, hAF]]
          rw [ih _ hqr, List.filterMap_cons, hAF]
          simp [Except.toOption]
      | ok r =>
          have hAF : analyzeFile PyO AO f =
              .ok ⟨f, PyO f, r, needsRefactoring (PyO f), none⟩ := by
            rw [analyzeFile, hA]
          rw [show planAux PyO AO (f :: rest) acc = planAux PyO AO rest (acc ++
              [⟨f, PyO f, r, needsRefactoring (PyO f), none⟩]) from by
            rw [planAux, hAF]]
          rw [ih _ hqr, List.filterMap_cons, hAF]
          simp [Except.toOption]

theorem createRefactoringPlan_noquota (PyO : String → PylintResult)
    (AO : String → AnalyzeOutcome) (files : List String)
    (hq : ∀ f ∈ files, AO f ≠ .quota) :
    createRefactoringPlan PyO AO files =
      .ok (files.filterMap (fun f => (analyzeFile PyO AO f).toOption)) := by
  rw [createRefactoringPlan, planAux_noquota PyO AO files [] hq]
  simp

/-- The plan's filepaths form a sublist of the discovered files. -/
theorem plan_filepaths_sublist (PyO : String → PylintResult)
    (AO : String → AnalyzeOutcome) (files : List String) :
    ((files.filterMap (fun f => (analyzeFile PyO AO f).toOption)).map
      Analysis.filepath).Sublist files := by
  induction files with
  | nil => simp
  | cons f rest ih =>
      rw [List.filterMap_cons]
      cases hA : (analyzeFile PyO AO f).toOption with
      | none => exact ih.cons f
      | some a =>
          have hfp : a.filepath = f := by
            apply analyzeFile_filepath PyO AO f
            cases hE : analyzeFile PyO AO f with
            | error e => rw [hE] at hA; simp [Except.toOption] at hA
            | ok b =>
                rw [hE] at hA
                simp [Except.toOption] at hA
                simp [hA]
          rw [List.map_cons, hfp]
          exact ih.cons₂ f

/-! ## No-quota characterizations of the sub-phases -/

/-- Whether the repair of `x` succeeds (`fixed: True`) at `iter`. -/
def fixOk (FixO : String → Nat → FixOutcome) (iter : Nat)
    (x : String × Analysis) : Bool :=
  match FixO x.1 iter with
  | .ok _ => true
  | _ => false

/-- When no quota signal occurs, the repair sub-phase keeps exactly the files
whose fix succeeded, writes a `fix_failed` record for each of the rest, and
calls `fix_file` once on every pending file, in order. -/
theorem fixPass_noquota_char (FixO : String → Nat → FixOutcome) (iter : Nat)
    (todo kept : List (String × Analysis)) (res : List (String × FileRecord))
    (calls : List (String × Nat))
    (hq : ∀ x ∈ todo, FixO x.1 iter ≠ .quota)
    (hfresh : ∀ x ∈ todo, x.1 ∉ keys res)
    (hnd : (keys todo).Nodup) :
    fixPass FixO iter todo kept res calls = .ok
      (kept ++ todo.filter (fixOk FixO iter),
       res ++ (todo.filter (fun x => !fixOk FixO iter x)).map
         (fun x => (x.1, fixFailedRecord iter)),
       calls ++ todo.map (fun x => (x.1, iter))) := by
  induction todo generalizing kept res calls with
  | nil => simp [fixPass_nil]
  | cons x rest ih =>
      obtain ⟨q, a⟩ := x
      have hqh : FixO q iter ≠ .quota := hq (q, a) (List.mem_cons_self _ _)
      have hqr : ∀ y ∈ rest, FixO y.1 iter ≠ .quota :=
        fun y hy => hq y (List.mem_cons_of_mem _ hy)
      have hfh : q ∉ keys res := hfresh (q, a) (List.mem_cons_self _ _)
      rw [keys_cons, List.nodup_cons] at hnd
      cases hF : FixO q iter with
      | quota => exact absurd hF hqh
      | ok ns =>
          rw [fixPass_cons_ok a rest kept res calls hF]
          rw [ih (kept ++ [(q, a)]) res (calls ++ [(q, iter)]) hqr
            (fun y hy => hfresh y (List.mem_cons_of_mem _ hy)) hnd.2]
          have hok : fixOk FixO iter (q, a) = true := by simp [fixOk, hF]
          simp [List.filter_cons, hok]
      | llmError m =>
          rw [fixPass_cons_llm a rest kept res calls hF]
          rw [dinsert_of_not_mem _ hfh]
          have hok : fixOk FixO iter (q, a) = false := by simp [fixOk, hF]
          rw [ih kept (res ++ [(q, fixFailedRecord iter)]) (calls ++ [(q, iter)]) hqr
            ?fresh hnd.2]
          · simp [List.filter_cons, hok]
          case fresh =>
            intro y hy
            rw [keys_append, List.mem_append]
            rintro (hc | hc)
            · exact hfresh y (List.mem_cons_of_mem _ hy) hc
            · simp only [keys, List.map_cons, List.map_nil, List.mem_singleton] at hc
              exact hnd.1 (hc ▸ List.mem_map_of_mem Prod.fst hy)
      | writeError m =>
          rw [fixPass_cons_write a rest kept res calls hF]
          rw [dinsert_of_not_mem _ hfh]
          have hok : fixOk FixO iter (q, a) = false := by simp [fixOk, hF]
          rw [ih kept (res ++ [(q, fixFailedRecord iter)]) (calls ++ [(q, iter)]) hqr
            ?fresh hnd.2]
          · simp [List.filter_cons, hok]
          case fresh =>
            intro y hy
            rw [keys_append, List.mem_append]
            rintro (hc | hc)
            · exact hfresh y (List.mem_cons_of_mem _ hy) hc
            · simp only [keys, List.map_cons, List.map_nil, List.mem_singleton] at hc
              exact hnd.1 (hc ▸ List.mem_map_of_mem Prod.fst hy)

/-- Whether the validation of `x` passes at `iter`. -/
def valOk (ValO : String → Nat → ValOutcome) (iter : Nat)
    (x : String × Analysis) : Bool :=
  match ValO x.1 iter with
  | .tests tr => tr.passed
  | _ => false

/-- The pending entry kept for a file that failed validation at `iter`:
same key, analysis text extended with the failure feedback. -/
def valUpd (ValO : String → Nat → ValOutcome) (iter : Nat)
    (x : String × Analysis) : String × Analysis :=
  match ValO x.1 iter with
  | .genFailed =>
      (x.1, addFeedback x.2
        (getFailureFeedback x.1 ⟨false, some "Could not generate tests", none⟩))
  | .tests tr =>
      (x.1, addFeedback x.2 (getFailureFeedback x.1 ⟨tr.passed, none, some tr⟩))
  | .quota => x

/-- When no quota signal occurs, the validation sub-phase closes exactly the
files whose tests passed, keeps the rest pending with accumulated feedback,
calls the judge once per file, and reports whether any file failed. -/
theorem valPass_noquota_char (ValO : String → Nat → ValOutcome) (iter : Nat)
    (todo kept : List (String × Analysis)) (res : List (String × FileRecord))
    (calls : List (String × Nat)) (af : Bool)
    (hq : ∀ x ∈ todo, ValO x.1 iter ≠ .quota)
    (hfresh : ∀ x ∈ todo, x.1 ∉ keys res)
    (hnd : (keys todo).Nodup) :
    valPass ValO iter todo kept res calls af = .ok
      (kept ++ (todo.filter (fun x => !valOk ValO iter x)).map (valUpd ValO iter),
       res ++ (todo.filter (valOk ValO iter)).map
         (fun x => (x.1, successRecord iter)),
       calls ++ todo.map (fun x => (x.1, iter)),
       af || todo.any (fun x => !valOk ValO iter x)) := by
  induction todo generalizing kept res calls af with
  | nil => simp [valPass_nil]
  | cons x rest ih =>
      obtain ⟨q, a⟩ := x
      have hqh : ValO q iter ≠ .quota := hq (q, a) (List.mem_cons_self _ _)
      have hqr : ∀ y ∈ rest, ValO y.1 iter ≠ .quota :=
        fun y hy => hq y (List.mem_cons_of_mem _ hy)
      have hfh : q ∉ keys res := hfresh (q, a) (List.mem_cons_self _ _)
      rw [keys_cons, List.nodup_cons] at hnd
      cases hV : ValO q iter with
      | quota => exact absurd hV hqh
      | genFailed =>
          rw [valPass_cons_genFailed a rest kept res calls af hV]
          rw [ih _ res (calls ++ [(q, iter)]) true hqr
            (fun y hy => hfresh y (List.mem_cons_of_mem _ hy)) hnd.2]
          have hok : valOk ValO iter (q, a) = false := by simp [valOk, hV]
          have hupd : valUpd ValO iter (q, a) =
              (q, addFeedback a
                (getFailureFeedback q ⟨false, some "Could not generate tests", none⟩)) := by
            simp [valUpd, hV]
          simp [List.filter_cons, List.any_cons, hok, hupd]
      | tests tr =>
          cases hp : tr.passed with
          | true =>
              rw [valPass_cons_pass a rest kept res calls af hV hp]
              rw [dinsert_of_not_mem _ hfh]
              have hok : valOk ValO iter (q, a) = true := by simp [valOk, hV, hp]
              rw [ih kept (res ++ [(q, successRecord iter)]) (calls ++ [(q, iter)]) af hqr
                ?fresh hnd.2]
              · simp [List.filter_cons, List.any_cons, hok]
              case fresh =>
                intro y hy
                rw [keys_append, List.mem_append]
                rintro (hc | hc)
                · exact hfresh y (List.mem_cons_of_mem _ hy) hc
                · simp only [keys, List.map_cons, List.map_nil, List.mem_singleton] at hc
                  exact hnd.1 (hc ▸ List.mem_map_of_mem Prod.fst hy)
          | false =>
              rw [valPass_cons_fail a rest kept res calls af hV hp]
              rw [ih _ res (calls ++ [(q, iter)]) true hqr
                (fun y hy => hfresh y (List.mem_cons_of_mem _ hy)) hnd.2]
              have hok : valOk ValO iter (q, a) = false := by simp [valOk, hV, hp]
              have hupd : valUpd ValO iter (q, a) =
                  (q, addFeedback a (getFailureFeedback q ⟨tr.passed, none, some tr⟩)) := by
                simp [valUpd, hV]
              simp [List.filter_cons, List.any_cons, hok, hupd, hp]

/-! ## runX exit-shape lemmas -/

theorem runX_quotaPhase1 (PyO : String → PylintResult) (AO : String → AnalyzeOutcome)
    (FixO : String → Nat → FixOutcome) (ValO : String → Nat → ValOutcome)
    (files : List String) (mi : Nat) (e : Unit)
    (hplan : createRefactoringPlan PyO AO files = .error e) :
    runX PyO AO FixO ValO files mi = (.quotaPhase1, [], []) := by
  simp [runX, hplan]

theorem runX_noFiles (PyO : String → PylintResult) (AO : String → AnalyzeOutcome)
    (FixO : String → Nat → FixOutcome) (ValO : String → Nat → ValOutcome)
    (files : List String) (mi : Nat)
    (hplan : createRefactoringPlan PyO AO files = .ok []) :
    runX PyO AO FixO ValO files mi = (.noFiles, [], []) := by
  simp [runX, hplan]

theorem runX_noPending (PyO : String → PylintResult) (AO : String → AnalyzeOutcome)
    (FixO : String → Nat → FixOutcome) (ValO : String → Nat → ValOutcome)
    (files : List String) (mi : Nat) (analyses : List Analysis)
    (hplan : createRefactoringPlan PyO AO files = .ok analyses)
    (hne : analyses.isEmpty = false)
    (hpe : (partitionAnalyses analyses).1.isEmpty = true) :
    runX PyO AO FixO ValO files mi =
      (.summary (buildSummary (partitionAnalyses analyses).2), [], []) := by
  simp [runX, hplan, hne, hpe]

theorem runX_quota_exit (PyO : String → PylintResult) (AO : String → AnalyzeOutcome)
    (FixO : String → Nat → FixOutcome) (ValO : String → Nat → ValOutcome)
    (files : List String) (mi : Nat) (analyses : List Analysis)
    (hplan : createRefactoringPlan PyO AO files = .ok analyses)
    (hne : analyses.isEmpty = false)
    (hpne : (partitionAnalyses analyses).1.isEmpty = false)
    (hq : (runLoop FixO ValO mi mi (partitionAnalyses analyses).1
      (partitionAnalyses analyses).2 [] []).quota = true) :
    runX PyO AO FixO ValO files mi =
      (.summary (buildSummary (markAll
        (runLoop FixO ValO mi mi (partitionAnalyses analyses).1
          (partitionAnalyses analyses).2 [] []).pending
        (runLoop FixO ValO mi mi (partitionAnalyses analyses).1
          (partitionAnalyses analyses).2 [] []).results quotaRecord)),
       (runLoop FixO ValO mi mi (partitionAnalyses analyses).1
         (partitionAnalyses analyses).2 [] []).fixCalls,
       (runLoop FixO ValO mi mi (partitionAnalyses analyses).1
         (partitionAnalyses analyses).2 [] []).valCalls) := by
  simp [runX, hplan, hne, hpne, hq]

theorem runX_normal_exit (PyO : String → PylintResult) (AO : String → AnalyzeOutcome)
    (FixO : String → Nat → FixOutcome) (ValO : String → Nat → ValOutcome)
    (files : List String) (mi : Nat) (analyses : List Analysis)
    (hplan : createRefactoringPlan PyO AO files = .ok analyses)
    (hne : analyses.isEmpty = false)
    (hpne : (partitionAnalyses analyses).1.isEmpty = false)
    (hq : (runLoop FixO ValO mi mi (partitionAnalyses analyses).1
      (partitionAnalyses analyses).2 [] []).quota = false) :
    runX PyO AO FixO ValO files mi =
      (.summary (buildSummary (markAll
        (runLoop FixO ValO mi mi (partitionAnalyses analyses).1
          (partitionAnalyses analyses).2 [] []).pending
        (runLoop FixO ValO mi mi (partitionAnalyses analyses).1
          (partitionAnalyses analyses).2 [] []).results (maxIterRecord mi))),
       (runLoop FixO ValO mi mi (partitionAnalyses analyses).1
         (partitionAnalyses analyses).2 [] []).fixCalls,
       (runLoop FixO ValO mi mi (partitionAnalyses analyses).1
         (partitionAnalyses analyses).2 [] []).valCalls) := by
  simp [runX, hplan, hne, hpne, hq]

/-! ## Gateway step lemmas -/

theorem generateGo_ok {backend : Nat → Except String String} {attempt : Nat}
    {t : String} (rd : ℚ) (left : Nat) (ds : List ℚ)
    (h : backend attempt = .ok t) :
    generateGo backend rd attempt left ds = (.ok t, ds) := by
  conv_lhs => rw [generateGo]
  rw [h]

theorem generateGo_llmError {backend : Nat → Except String String} {attempt : Nat}
    {e : String} (rd : ℚ) (left : Nat) (ds : List ℚ)
    (h : backend attempt = .error e) (hr : isRateLimitMsg (lowerStr e) = false) :
    generateGo backend rd attempt left ds =
      (.llmError ("Error generating response: " ++ e), ds) := by
  conv_lhs => rw [generateGo]
  rw [h]
  simp [hr]

theorem generateGo_quotaOut {backend : Nat → Except String String} {attempt : Nat}
    {e : String} (rd : ℚ) (ds : List ℚ)
    (h : backend attempt = .error e) (hr : isRateLimitMsg (lowerStr e) = true) :
    generateGo backend rd attempt 0 ds = (.quotaExhausted, ds) := by
  conv_lhs => rw [generateGo]
  rw [h]
  simp [hr]

theorem generateGo_retry {backend : Nat → Except String String} {attempt : Nat}
    {e : String} (rd : ℚ) (left : Nat) (ds : List ℚ)
    (h : backend attempt = .error e) (hr : isRateLimitMsg (lowerStr e) = true) :
    generateGo backend rd attempt (left + 1) ds =
      generateGo backend rd (attempt + 1) left
        (ds ++ [retrySleep rd attempt (lowerStr e)]) := by
  conv_lhs => rw [generateGo]
  rw [h]
  simp [hr]

/-! ## Shared concrete oracles for the claim witnesses -/

/-- Pylint gives every file a score of 5 with no issues: below the 7.0
threshold, so every file needs work. -/
def stdPyO : String → PylintResult := fun _ => ⟨5, [], none⟩

/-- The analysis model call succeeds everywhere. -/
def stdAO : String → AnalyzeOutcome := fun _ => .ok "issues found"

/-- Every repair succeeds; the post-repair pylint score is again 5, i.e. the
repair never strictly raises the quality score. -/
def stdFixO : String → Nat → FixOutcome := fun _ _ => .ok 5

/-- Every validation run passes. -/
def stdValO : String → Nat → ValOutcome := fun _ _ => .tests ⟨true, some "", some ""⟩

/-! ## Claim theorems -/

/-- C1, counterexample.  A source file whose analysis raises a non-quota,
non-model error (`AnalyzeOutcome.otherError`, e.g. a read failure caught by
`create_refactoring_plan`'s blanket `except`) is dropped from the plan
entirely: with a single such file the run returns the `no_files` result, so
the file is not added to the pending set and is not accounted for under any
terminal verdict in any batch summary — contradicting the claim. -/
theorem C1_counterexample :
    (fun (_ : String) => AnalyzeOutcome.otherError) "pkg/module.py" = .otherError ∧
    createRefactoringPlan stdPyO (fun _ => .otherError) ["pkg/module.py"] = .ok [] ∧
    run stdPyO (fun _ => .otherError) stdFixO stdValO ["pkg/module.py"] 10 = .noFiles := by
  refine ⟨rfl, by decide, by decide⟩

/-- The analysis record produced by `stdPyO`/`stdAO` for `a.py`. -/
def c3Analysis : Analysis := ⟨"a.py", ⟨5, [], none⟩, "issues found", true, none⟩

/-- C3, counterexample.  On a batch of one file whose repair leaves the
pylint score unchanged (5 before, 5 after — the fixer's own `improved` flag
is `false`), the summary still reports `improved = 1`, because
`run` hard-codes `improved: True` into every validation-success record and
ignores the fixer's strict-increase flag.  So `improved` does not count
records whose repair strictly raised the quality score. -/
theorem C3_counterexample :
    run stdPyO stdAO stdFixO stdValO ["a.py"] 10 =
      .summary ⟨1, 1, 1, [("a.py", successRecord 1)]⟩ ∧
    analyzeFile stdPyO stdAO "a.py" = .ok c3Analysis ∧
    fixFile stdFixO "a.py" c3Analysis 1 = .ok ⟨true, false, none⟩ := by
  refine ⟨by decide, by decide, by decide⟩

/-- C4.  The judge writes test artifacts into a `tests` subfolder colocated
with each source file, at any directory depth, but `_cleanup_tests` removes
only the single `tests` folder at the working root (`target_dir` is always
`'.'`).  For the nested source file `code_bugs/bad_style.py`, the generated
artifacts `code_bugs/tests/test_bad_style.py` and `code_bugs/tests/__init__.py`
lie outside the removed subtree and survive the cleanup, while a top-level
file's artifact `tests/test_top.py` is removed. -/
theorem C4_nested_artifacts_escape_cleanup :
    testFilePath "code_bugs/bad_style.py" = "code_bugs/tests/test_bad_style.py" ∧
    testsDirOf "code_bugs/bad_style.py" = "code_bugs/tests" ∧
    removedByCleanup "." "code_bugs/tests/test_bad_style.py" = false ∧
    removedByCleanup "." "code_bugs/tests/__init__.py" = false ∧
    testFilePath "top.py" = "tests/test_top.py" ∧
    removedByCleanup "." "tests/test_top.py" = true := by
  decide

/-- C5.  `filesystem._resolve_and_validate` checks containment with a raw
string-prefix test on the resolved path.  A sibling directory whose name
extends the sandbox root's name — `/repo/sandbox_evil` next to root
`/repo/sandbox` — passes the check although it resolves outside the root
(`is_relative_to` is false), so read/write/list on such a path are not
rejected; paths genuinely inside are accepted by both checks. -/
theorem C5_sandbox_prefix_bypass :
    sandboxPrefixCheck "/repo/sandbox" "/repo/sandbox_evil/secret.py" = true ∧
    isRelativeToRoot "/repo/sandbox" "/repo/sandbox_evil/secret.py" = false ∧
    sandboxPrefixCheck "/repo/sandbox" "/repo/sandbox/code_bugs/x.py" = true ∧
    isRelativeToRoot "/repo/sandbox" "/repo/sandbox/code_bugs/x.py" = true ∧
    sandboxPrefixCheck "/repo/sandbox" "/repo/other/x.py" = false := by
  decide

/-- A repaired body containing an injected pytest import and a test class
whose body mentions `unittest.TestCase` on an inner line. -/
def c6Body : String :=
  "import pytest\nclass TestA(unittest.TestCase):\n    def test_x(self):\n        y = unittest.TestCase\n    def helper(self):\n        pass\nprint(1)"

/-- C6, counterexample.  The sanitizer's class trigger fires on the substring
`unittest.TestCase` even while a block is already being skipped, resetting
the skip threshold to the deeper line's indentation; skipping then ends too
early and lines belonging to the injected test class (`    def helper...`,
`        pass`) are emitted.  The output therefore still contains part of the
test-class block, refuting the claim for this input. -/
theorem C6_counterexample :
    isTestImport "import pytest" = true ∧
    isClassTrigger "class TestA(unittest.TestCase):" = true ∧
    removeTestCode c6Body = "    def helper(self):\n        pass\nprint(1)" ∧
    "    def helper(self):" ∈ pyLines (removeTestCode c6Body) := by
  decide

/-- The Groq backend for the C9 counterexample: rate-limited twice — the
second payload carrying an explicit `try again in 20s`, equal to the
configured default delay — then a successful response. -/
def c9Backend : Nat → Except String String := fun k =>
  match k with
  | 0 => .error "429 Too Many Requests: try again in 5s"
  | 1 => .error "429 Too Many Requests: try again in 20s"
  | _ => .ok "done"

/-- C9, counterexample.  On the second rate-limit the payload carries an
explicit delay of 20 s (`_extract_retry_delay` parses it), yet because the
parsed value equals the configured default `retry_delay`, `generate` treats
it as absent and sleeps `20 * (attempt + 1) = 40` s instead.  So the gateway
does not always retry with the payload delay when one is present. -/
theorem C9_counterexample :
    extractRetryDelay 20
      (lowerStr "429 Too Many Requests: try again in 20s") = 20 ∧
    generate 3 20 c9Backend = (.ok "done", [5, 40]) := by
  constructor
  · decide
  · have h0 : c9Backend 0 = .error "429 Too Many Requests: try again in 5s" := rfl
    have h1 : c9Backend 1 = .error "429 Too Many Requests: try again in 20s" := rfl
    have h2 : c9Backend 2 = .ok "done" := rfl
    rw [generate, generateGo_retry 20 2 [] h0 (by decide),
        generateGo_retry 20 1 _ h1 (by decide), generateGo_ok 20 1 _ h2]
    have e0 : retrySleep 20 0 (lowerStr "429 Too Many Requests: try again in 5s") = 5 := by
      rw [retrySleep,
        show extractRetryDelay 20
          (lowerStr "429 Too Many Requests: try again in 5s") = 5 by decide]
      norm_num
    have e1 : retrySleep 20 1 (lowerStr "429 Too Many Requests: try again in 20s") = 40 := by
      rw [retrySleep,
        show extractRetryDelay 20
          (lowerStr "429 Too Many Requests: try again in 20s") = 20 by decide]
      norm_num
    rw [e0, e1]
    rfl

/-! ## Sanitizer lemmas for the amended C6 -/

/-- A line that matches none of the sanitizer's trigger patterns. -/
def neutralLine (l : String) : Prop :=
  isTestImport l = false ∧ isClassTrigger l = false ∧
    matchTestDef l = false ∧ isMainTrigger l = false

theorem head_ws_of_blank_or_deeper {l : String} {i : Nat}
    (h : isBlank l = true ∨ i < indentOf l) :
    l.toList = [] ∨ ∃ c cs, l.toList = c :: cs ∧ pyIsWS c = true := by
  cases hl : l.toList with
  | nil => exact Or.inl rfl
  | cons c cs =>
      refine Or.inr ⟨c, cs, rfl, ?_⟩
      rcases h with h | h
      · rw [isBlank, hl] at h
        exact (List.all_eq_true.mp h c (List.mem_cons_self c cs))
      · rw [indentOf, hl] at h
        by_contra hc
        rw [List.takeWhile_cons, if_neg (by simpa using hc)] at h
        simp at h

theorem isTestImport_of_blank_or_deeper {l : String} {i : Nat}
    (h : isBlank l = true ∨ i < indentOf l) : isTestImport l = false := by
  rcases head_ws_of_blank_or_deeper h with hl | ⟨c, cs, hl, hws⟩
  · rw [isTestImport, matchTestModuleAfter, matchTestModuleAfter, hl]
    rfl
  · have hci : c ≠ 'i' := by
      intro hc
      rw [hc] at hws
      exact absurd hws (by decide)
    have hcf : c ≠ 'f' := by
      intro hc
      rw [hc] at hws
      exact absurd hws (by decide)
    have e1 : afterLit "import".toList (c :: cs) = none := by
      rw [show "import".toList = 'i' :: "mport".toList from by decide]
      rw [afterLit, if_neg hci]
    have e2 : afterLit "from".toList (c :: cs) = none := by
      rw [show "from".toList = 'f' :: "rom".toList from by decide]
      rw [afterLit, if_neg hcf]
    rw [isTestImport, matchTestModuleAfter, matchTestModuleAfter, hl, e1, e2]
    rfl

instance (l : String) : Decidable (neutralLine l) := by
  unfold neutralLine
  infer_instance

/-- Neutral lines pass through the sanitizer unchanged while it is
emitting. -/
theorem sanitize_neutral (pre rest : List String) (ci : Nat)
    (h : ∀ l ∈ pre, neutralLine l) :
    sanitizeLines (pre ++ rest) false ci = pre ++ sanitizeLines rest false ci := by
  induction pre with
  | nil => rfl
  | cons l pre ih =>
      obtain ⟨h1, h2, h3, h4⟩ := h l (List.mem_cons_self l pre)
      show sanitizeLines (l :: (pre ++ rest)) false ci = _
      rw [sanitizeLines, if_neg (by rw [h1]; exact Bool.false_ne_true),
        if_neg (by rw [h2]; exact Bool.false_ne_true)]
      rw [if_neg (by simp), if_neg (by rw [h3]; exact Bool.false_ne_true),
        if_neg (by rw [h4]; exact Bool.false_ne_true)]
      rw [ih (fun x hx => h x (List.mem_cons_of_mem l hx))]
      rfl

/-- While skipping with threshold `i`, blank or deeper-indented lines that do
not themselves contain a class trigger are consumed without output. -/
theorem sanitize_block (block rest : List String) (i : Nat)
    (h : ∀ l ∈ block, isClassTrigger l = false ∧
      (isBlank l = true ∨ i < indentOf l)) :
    sanitizeLines (block ++ rest) true i = sanitizeLines rest true i := by
  induction block with
  | nil => rfl
  | cons l block ih =>
      obtain ⟨h2, hbd⟩ := h l (List.mem_cons_self l block)
      have h1 : isTestImport l = false := isTestImport_of_blank_or_deeper hbd
      have hcond : (isBlank l || decide (i < indentOf l)) = true := by
        rcases hbd with hb | hb
        · rw [hb, Bool.true_or]
        · rw [decide_eq_true hb, Bool.or_true]
      show sanitizeLines (l :: (block ++ rest)) true i = _
      rw [sanitizeLines, if_neg (by rw [h1]; exact Bool.false_ne_true),
        if_neg (by rw [h2]; exact Bool.false_ne_true),
        if_pos (by rw [hcond]; rfl)]
      exact ih (fun x hx => h x (List.mem_cons_of_mem l hx))

/-- C6, amended.  The sanitization round-trip holds on every body whose
injected test code is well-bracketed: some neutral lines, a top-level
test-framework import, more neutral lines, a test-class header (itself not
an import line), a class body of blank-or-deeper lines none of which holds a
class trigger of its own, then either nothing or a resumption section that
starts with a non-blank line dedented to at most the header and consists of
neutral lines.  The sanitizer then removes exactly the import line and the
class block, emits all other lines unchanged and in order, and trims trailing
blank lines.  (The original claim fails without the no-inner-trigger
condition; see the counterexample.) -/
theorem C6_amended (pre mid block post : List String) (imp cls : String)
    (body : String)
    (hpre : ∀ l ∈ pre, neutralLine l)
    (hmid : ∀ l ∈ mid, neutralLine l)
    (himp : isTestImport imp = true)
    (hclsi : isTestImport cls = false)
    (hcls : isClassTrigger cls = true)
    (hblock : ∀ l ∈ block, isClassTrigger l = false ∧
      (isBlank l = true ∨ indentOf cls < indentOf l))
    (hpost : post = [] ∨ (∃ h t, post = h :: t ∧ isBlank h = false ∧
      indentOf h ≤ indentOf cls ∧ ∀ l ∈ post, neutralLine l))
    (hbody : pyLines body = pre ++ (imp :: (mid ++ (cls :: (block ++ post))))) :
    removeTestCode body = joinLines (dropTrailingBlanks (pre ++ (mid ++ post))) := by
  rw [removeTestCode, hbody]
  have hsan : sanitizeLines (pre ++ (imp :: (mid ++ (cls :: (block ++ post))))) false 0 =
      pre ++ (mid ++ post) := by
    rw [sanitize_neutral pre (imp :: (mid ++ (cls :: (block ++ post)))) 0 hpre]
    rw [show sanitizeLines (imp :: (mid ++ (cls :: (block ++ post)))) false 0 =
        sanitizeLines (mid ++ (cls :: (block ++ post))) false 0 from by
      rw [sanitizeLines, if_pos (by rw [himp])]]
    rw [sanitize_neutral mid (cls :: (block ++ post)) 0 hmid]
    rw [show sanitizeLines (cls :: (block ++ post)) false 0 =
        sanitizeLines (block ++ post) true (indentOf cls) from by
      rw [sanitizeLines, if_neg (by rw [hclsi]; exact Bool.false_ne_true),
        if_pos (by rw [hcls])]]
    rw [sanitize_block block post (indentOf cls) hblock]
    rcases hpost with hp | ⟨h, t, hp, hb, hi, hn⟩
    · rw [hp]
      rfl
    · rw [hp]
      obtain ⟨h1, h2, h3, h4⟩ := hn h (by rw [hp]; exact List.mem_cons_self h t)
      have hskip : (isBlank h || decide (indentOf cls < indentOf h)) = false := by
        rw [hb, decide_eq_false (by omega), Bool.or_false]
      rw [sanitizeLines, if_neg (by rw [h1]; exact Bool.false_ne_true),
        if_neg (by rw [h2]; exact Bool.false_ne_true),
        if_neg (by rw [hskip]; simp),
        if_neg (by rw [h3]; exact Bool.false_ne_true),
        if_neg (by rw [h4]; exact Bool.false_ne_true)]
      have ht : ∀ l ∈ t, neutralLine l :=
        fun l hl => hn l (by rw [hp]; exact List.mem_cons_of_mem h hl)
      rw [show sanitizeLines t false (indentOf cls) =
          sanitizeLines (t ++ []) false (indentOf cls) from by rw [List.append_nil]]
      rw [sanitize_neutral t [] (indentOf cls) ht]
      simp [show sanitizeLines [] false (indentOf cls) = [] from rfl]
  rw [hsan]

/-- Witness for the amended C6 at a concrete body: one code line, the
injected import, another code line, a two-line test class, and a trailing
print plus final newline; sanitization removes exactly the injected parts. -/
theorem C6_amended_witness :
    removeTestCode ("x = 1\nimport pytest\ny = 2\nclass TestA(unittest.TestCase):\n    def test_x(self):\n        pass\nprint(1)\n") =
      "x = 1\ny = 2\nprint(1)" := by
  have h := C6_amended ["x = 1"] ["y = 2"]
    ["    def test_x(self):", "        pass"] ["print(1)", ""]
    "import pytest" "class TestA(unittest.TestCase):"
    ("x = 1\nimport pytest\ny = 2\nclass TestA(unittest.TestCase):\n    def test_x(self):\n        pass\nprint(1)\n")
    (by decide) (by decide) (by decide) (by decide) (by decide) (by decide)
    (Or.inr ⟨"print(1)", [""], rfl, by decide, by decide, by decide⟩)
    (by decide)
  rw [h]
  decide

/-! ## Gateway quota lemmas for C9 -/

/-- Whether the backend's behaviour at attempt `k` is classified as a
rate-limit by `generate` (llm_client.py:99). -/
def rateLimited (backend : Nat → Except String String) (k : Nat) : Bool :=
  match backend k with
  | .ok _ => false
  | .error e => isRateLimitMsg (lowerStr e)

/-- The lowered error text of attempt `k` (empty for a success). -/
def errLowOf (backend : Nat → Except String String) (k : Nat) : String :=
  match backend k with
  | .ok _ => ""
  | .error e => lowerStr e

theorem generateGo_quota_iff (backend : Nat → Except String String) (rd : ℚ) :
    ∀ (left attempt : Nat) (ds : List ℚ),
    ((generateGo backend rd attempt left ds).1 = GenOutcome.quotaExhausted ↔
      ∀ j, attempt ≤ j → j ≤ attempt + left → rateLimited backend j = true) := by
  intro left
  induction left with
  | zero =>
      intro attempt ds
      cases hb : backend attempt with
      | ok t =>
          rw [generateGo_ok rd 0 ds hb]
          constructor
          · intro h
            exact absurd h (by simp)
          · intro hr
            have hj := hr attempt le_rfl (by omega)
            simp only [rateLimited, hb] at hj
            exact absurd hj (by simp)
      | error e =>
          cases hrl : isRateLimitMsg (lowerStr e) with
          | true =>
              rw [generateGo_quotaOut rd ds hb hrl]
              constructor
              · intro _ j hj1 hj2
                have hje : j = attempt := by omega
                rw [hje]
                simp only [rateLimited, hb]
                exact hrl
              · intro _
                rfl
          | false =>
              rw [generateGo_llmError rd 0 ds hb hrl]
              constructor
              · intro h
                exact absurd h (by simp)
              · intro hr
                have hj := hr attempt le_rfl (by omega)
                simp only [rateLimited, hb] at hj
                rw [hrl] at hj
                exact absurd hj (by simp)
  | succ left ih =>
      intro attempt ds
      cases hb : backend attempt with
      | ok t =>
          rw [generateGo_ok rd (left + 1) ds hb]
          constructor
          · intro h
            exact absurd h (by simp)
          · intro hr
            have hj := hr attempt le_rfl (by omega)
            simp only [rateLimited, hb] at hj
            exact absurd hj (by simp)
      | error e =>
          cases hrl : isRateLimitMsg (lowerStr e) with
          | true =>
              rw [generateGo_retry rd left ds hb hrl]
              rw [ih (attempt + 1) (ds ++ [retrySleep rd attempt (lowerStr e)])]
              constructor
              · intro hr j hj1 hj2
                by_cases hje : j = attempt
                · rw [hje]
                  simp only [rateLimited, hb]
                  exact hrl
                · exact hr j (by omega) (by omega)
              · intro hr j hj1 hj2
                exact hr j (by omega) (by omega)
          | false =>
              rw [generateGo_llmError rd (left + 1) ds hb hrl]
              constructor
              · intro h
                exact absurd h (by simp)
              · intro hr
                have hj := hr attempt le_rfl (by omega)
                simp only [rateLimited, hb] at hj
                rw [hrl] at hj
                exact absurd hj (by simp)

theorem generateGo_quota_delays (backend : Nat → Except String String) (rd : ℚ) :
    ∀ (left attempt : Nat) (ds : List ℚ),
    (∀ j, attempt ≤ j → j ≤ attempt + left → rateLimited backend j = true) →
    generateGo backend rd attempt left ds =
      (.quotaExhausted, ds ++ (List.range left).map
        (fun i => retrySleep rd (attempt + i) (errLowOf backend (attempt + i)))) := by
  intro left
  induction left with
  | zero =>
      intro attempt ds hr
      have hj := hr attempt le_rfl (by omega)
      cases hb : backend attempt with
      | ok t =>
          simp only [rateLimited, hb] at hj
          exact absurd hj (by simp)
      | error e =>
          simp only [rateLimited, hb] at hj
          rw [generateGo_quotaOut rd ds hb hj]
          simp
  | succ left ih =>
      intro attempt ds hr
      have hj := hr attempt le_rfl (by omega)
      cases hb : backend attempt with
      | ok t =>
          simp only [rateLimited, hb] at hj
          exact absurd hj (by simp)
      | error e =>
          simp only [rateLimited, hb] at hj
          rw [generateGo_retry rd left ds hb hj]
          rw [ih (attempt + 1) _ (fun j h1 h2 => hr j (by omega) (by omega))]
          rw [List.range_succ_eq_map, List.map_cons, List.map_map]
          have hhead : retrySleep rd (attempt + 0) (errLowOf backend (attempt + 0)) =
          retrySleep rd attempt (lowerStr e) := by
            rw [Nat.add_zero, errLowOf, hb]
          rw [hhead]
          rw [List.map_congr_left (l := List.range left)
            (f := (fun i => retrySleep rd (attempt + i) (errLowOf backend (attempt + i))) ∘ Nat.succ)
            (g := fun i => retrySleep rd (attempt + 1 + i) (errLowOf backend (attempt + 1 + i)))
            (fun i _ => by
              simp only [Function.comp_apply]
              rw [show attempt + Nat.succ i = attempt + 1 + i by omega])]
          simp

/-- C9, amended.  The gateway retries a rate-limited call using the delay
parsed from the error payload only when that delay differs from the
configured default; a parsed (or absent) delay equal to the default is
replaced by the linear backoff `retry_delay * (attempt + 1)`.  It raises the
distinguished quota-exhaustion error exactly when every one of the
`max_retries + 1` attempts is rate-limited, having slept the coded delay
after each non-final attempt; and a quota signal from a worker call aborts
the repair sub-phase immediately — the file list, results and call trace are
returned as they stood, with no further retry.  (The original claim fails
because a payload delay equal to the default is not used as-is; see the
counterexample.) -/
theorem C9_amended (mr : Nat) (rd : ℚ) (backend : Nat → Except String String) :
    ((generate mr rd backend).1 = .quotaExhausted ↔
      ∀ k, k ≤ mr → rateLimited backend k = true) ∧
    ((∀ k, k ≤ mr → rateLimited backend k = true) →
      (generate mr rd backend).2 =
        (List.range mr).map (fun k => retrySleep rd k (errLowOf backend k))) ∧
    (∀ (k : Nat) (msg : String), retrySleep rd k msg =
      if extractRetryDelay rd msg = rd then rd * (k + 1) else extractRetryDelay rd msg) ∧
    (∀ (FixO : String → Nat → FixOutcome) (iter : Nat) (q : String) (a : Analysis)
      (rest : List (String × Analysis)) (res : List (String × FileRecord))
      (fc : List (String × Nat)), FixO q iter = .quota →
      fixPass FixO iter ((q, a) :: rest) [] res fc =
        .error ((q, a) :: rest, res, fc ++ [(q, iter)])) := by
  refine ⟨?_, ?_, ?_, ?_⟩
  · rw [generate, generateGo_quota_iff backend rd mr 0 []]
    constructor
    · intro h k hk
      exact h k (by omega) (by omega)
    · intro h j hj1 hj2
      exact h j (by omega)
  · intro hr
    rw [generate, generateGo_quota_delays backend rd mr 0 []
      (fun j h1 h2 => hr j (by omega))]
    simp
  · intro k msg
    rfl
  · intro FixO iter q a rest res fc hF
    exact fixPass_cons_quota a rest [] res fc hF

/-- A backend that is rate-limited on every attempt. -/
def rlBackend : Nat → Except String String := fun _ => .error "429 rate limit"

/-- Witness for the amended C9: with the always-rate-limited backend, two
retries and default delay 20, `generate` raises quota exhaustion after
sleeping the linear backoff 20 s and 40 s. -/
theorem C9_amended_witness :
    (generate 2 20 rlBackend).1 = .quotaExhausted ∧
    (generate 2 20 rlBackend).2 = [20, 40] := by
  have h := C9_amended 2 20 rlBackend
  have hrl : ∀ k, k ≤ 2 → rateLimited rlBackend k = true := by
    intro k _
    simp only [rateLimited, rlBackend]
    decide
  constructor
  · exact (h.1).mpr hrl
  · rw [h.2.1 hrl]
    have e0 : retrySleep 20 0 (errLowOf rlBackend 0) = 20 := by
      rw [retrySleep, show extractRetryDelay 20 (errLowOf rlBackend 0) = 20 by decide,
        if_pos rfl]
      norm_num
    have e1 : retrySleep 20 1 (errLowOf rlBackend 1) = 40 := by
      rw [retrySleep, show extractRetryDelay 20 (errLowOf rlBackend 1) = 20 by decide,
        if_pos rfl]
      norm_num
    rw [show List.range 2 = [0, 1] from rfl, List.map_cons, List.map_cons, List.map_nil,
      e0, e1]

/-- C2.  If a quota-exhaustion signal unwinds Phase 2 (from either
sub-phase), `run` returns a batch summary built by the same
`_build_summary` path as normal termination, applied to the final records:
every record already terminal at that moment is carried over unchanged, and
every file still pending at that moment is stamped with the
`quota_exhausted` record. -/
theorem C2_quota_marks_pending (PyO : String → PylintResult)
    (AO : String → AnalyzeOutcome) (FixO : String → Nat → FixOutcome)
    (ValO : String → Nat → ValOutcome) (files : List String) (mi : Nat)
    (analyses : List Analysis) (out : LoopOut)
    (hnd : (analyses.map Analysis.filepath).Nodup)
    (hplan : createRefactoringPlan PyO AO files = .ok analyses)
    (hne : analyses.isEmpty = false)
    (hpne : (partitionAnalyses analyses).1.isEmpty = false)
    (hout : runLoop FixO ValO mi mi (partitionAnalyses analyses).1
      (partitionAnalyses analyses).2 [] [] = out)
    (hq : out.quota = true) :
    run PyO AO FixO ValO files mi =
      .summary (buildSummary (out.results ++
        out.pending.map (fun x => (x.1, quotaRecord)))) ∧
    markAll out.pending out.results quotaRecord =
      out.results ++ out.pending.map (fun x => (x.1, quotaRecord)) ∧
    (∀ x ∈ out.results, x ∈ markAll out.pending out.results quotaRecord) ∧
    (∀ fp ∈ keys out.pending,
      (fp, quotaRecord) ∈ markAll out.pending out.results quotaRecord) := by
  have hinv0 := partitionAnalyses_inv analyses hnd
  have hinv := runLoop_inv FixO ValO mi mi (partitionAnalyses analyses).1
    (partitionAnalyses analyses).2 [] [] hinv0
  rw [hout] at hinv
  have hmark := markAll_of_inv out.pending out.results quotaRecord hinv
  refine ⟨?_, hmark, ?_, ?_⟩
  · show (runX PyO AO FixO ValO files mi).1 = _
    rw [runX_quota_exit PyO AO FixO ValO files mi analyses hplan hne hpne
      (by rw [hout]; exact hq)]
    rw [hout, hmark]
  · intro x hx
    rw [hmark, List.mem_append]
    exact Or.inl hx
  · intro fp hfp
    rw [hmark, List.mem_append]
    right
    rw [mem_keys_iff] at hfp
    obtain ⟨a, ha⟩ := hfp
    exact List.mem_map.mpr ⟨(fp, a), ha, rfl⟩

/-- The judge raises quota exhaustion on every validation call. -/
def quotaValO : String → Nat → ValOutcome := fun _ _ => .quota

/-- The two analyses produced by `stdPyO`/`stdAO` on a two-file batch. -/
def cAnalysesAB : List Analysis :=
  [⟨"a.py", ⟨5, [], none⟩, "issues found", true, none⟩,
   ⟨"b.py", ⟨5, [], none⟩, "issues found", true, none⟩]

/-- The Phase-2 exit state for the C2 witness: both files repaired in round
1, quota raised on the first validation, so both files are still pending. -/
def c2Out : LoopOut :=
  ⟨[("a.py", ⟨"a.py", ⟨5, [], none⟩, "issues found", true, none⟩),
    ("b.py", ⟨"b.py", ⟨5, [], none⟩, "issues found", true, none⟩)],
   [], [("a.py", 1), ("b.py", 1)], [("a.py", 1)], true⟩

/-- Witness for C2: with quota raised at the first validation of round 1,
the run returns the summary in which both files carry `quota_exhausted`. -/
theorem C2_quota_marks_pending_witness :
    run stdPyO stdAO stdFixO quotaValO ["a.py", "b.py"] 10 =
      .summary ⟨2, 0, 0, [("a.py", quotaRecord), ("b.py", quotaRecord)]⟩ := by
  have h := C2_quota_marks_pending stdPyO stdAO stdFixO quotaValO
    ["a.py", "b.py"] 10 cAnalysesAB c2Out
    (by decide) (by decide) (by decide) (by decide) (by decide) rfl
  rw [h.1]
  decide

/-- Counting identities of `_build_summary` over well-formed records. -/
theorem buildSummary_counts (R : List (String × FileRecord))
    (hwf : ∀ x ∈ R, wfRecord x.2) :
    (buildSummary R).totalFiles = (buildSummary R).results.length ∧
    (buildSummary R).successful = ((buildSummary R).results.filter (fun r =>
      decide (r.2.status = .success) || decide (r.2.status = .no_fix_needed))).length ∧
    (buildSummary R).improved = ((buildSummary R).results.filter (fun r =>
      decide (r.2.status = .success))).length := by
  refine ⟨rfl, ?_, ?_⟩
  · show (R.filter (fun r => r.2.validated)).length = _
    rw [List.filter_congr (fun x hx => (hwf x hx).1)]
    rfl
  · show (R.filter (fun r => r.2.improved)).length = _
    rw [List.filter_congr (fun x hx => (hwf x hx).2)]
    rfl

/-- C3, amended.  In every batch summary `run` returns, `total` is the
number of file records and `successful` is the number of records whose
verdict is `passed`/`success` or `no_fix_needed`; but `improved` equals the
number of records with verdict `success` — i.e. the number of files that
passed validation — not the number of files whose repair strictly raised the
quality score (the orchestrator hard-codes `improved: True` on validation
success and discards the fixer's strict-increase flag; see the
counterexample). -/
theorem C3_amended (PyO : String → PylintResult) (AO : String → AnalyzeOutcome)
    (FixO : String → Nat → FixOutcome) (ValO : String → Nat → ValOutcome)
    (files : List String) (mi : Nat) (analyses : List Analysis)
    (hnd : (analyses.map Analysis.filepath).Nodup)
    (hplan : createRefactoringPlan PyO AO files = .ok analyses) :
    ∀ s fc vc, runX PyO AO FixO ValO files mi = (.summary s, fc, vc) →
      s.totalFiles = s.results.length ∧
      s.successful = (s.results.filter (fun r =>
        decide (r.2.status = .success) || decide (r.2.status = .no_fix_needed))).length ∧
      s.improved = (s.results.filter (fun r => decide (r.2.status = .success))).length := by
  intro s fc vc hrun
  by_cases h1 : analyses.isEmpty
  · rw [show analyses = [] from List.isEmpty_iff.mp h1] at hplan
    rw [runX_noFiles PyO AO FixO ValO files mi hplan] at hrun
    exact absurd (congrArg Prod.fst hrun) (by simp)
  · have h1f : analyses.isEmpty = false := by
      revert h1; cases analyses.isEmpty <;> simp
    have hwf0 := partitionAnalyses_wf analyses hnd
    by_cases h2 : (partitionAnalyses analyses).1.isEmpty
    · rw [runX_noPending PyO AO FixO ValO files mi analyses hplan h1f h2] at hrun
      have hs : s = buildSummary (partitionAnalyses analyses).2 := by
        have := congrArg Prod.fst hrun
        simp at this
        exact this.symm
      rw [hs]
      exact buildSummary_counts _ hwf0
    · have h2f : (partitionAnalyses analyses).1.isEmpty = false := by
        revert h2; cases (partitionAnalyses analyses).1.isEmpty <;> simp
      have hwfout := runLoop_wf FixO ValO mi mi (partitionAnalyses analyses).1
        (partitionAnalyses analyses).2 [] [] hwf0
      by_cases h3 : (runLoop FixO ValO mi mi (partitionAnalyses analyses).1
        (partitionAnalyses analyses).2 [] []).quota
      · rw [runX_quota_exit PyO AO FixO ValO files mi analyses hplan h1f h2f h3] at hrun
        have hs : s = buildSummary (markAll
            (runLoop FixO ValO mi mi (partitionAnalyses analyses).1
              (partitionAnalyses analyses).2 [] []).pending
            (runLoop FixO ValO mi mi (partitionAnalyses analyses).1
              (partitionAnalyses analyses).2 [] []).results quotaRecord) := by
          have := congrArg Prod.fst hrun
          simp at this
          exact this.symm
        rw [hs]
        exact buildSummary_counts _ (markAll_wf _ _ _ hwfout wf_quotaRecord)
      · have h3f : (runLoop FixO ValO mi mi (partitionAnalyses analyses).1
            (partitionAnalyses analyses).2 [] []).quota = false := by
          revert h3
          cases (runLoop FixO ValO mi mi (partitionAnalyses analyses).1
            (partitionAnalyses analyses).2 [] []).quota <;> simp
        rw [runX_normal_exit PyO AO FixO ValO files mi analyses hplan h1f h2f h3f] at hrun
        have hs : s = buildSummary (markAll
            (runLoop FixO ValO mi mi (partitionAnalyses analyses).1
              (partitionAnalyses analyses).2 [] []).pending
            (runLoop FixO ValO mi mi (partitionAnalyses analyses).1
              (partitionAnalyses analyses).2 [] []).results (maxIterRecord mi)) := by
          have := congrArg Prod.fst hrun
          simp at this
          exact this.symm
        rw [hs]
        exact buildSummary_counts _ (markAll_wf _ _ _ hwfout (wf_maxIterRecord mi))

/-- The single analysis produced by `stdPyO`/`stdAO` on `["a.py"]`. -/
def cAnalysesA : List Analysis :=
  [⟨"a.py", ⟨5, [], none⟩, "issues found", true, none⟩]

/-- Witness for the amended C3 on the one-file batch that passes validation
in round 1: the summary counts satisfy the three amended identities. -/
theorem C3_amended_witness :
    (⟨1, 1, 1, [("a.py", successRecord 1)]⟩ : BatchSummary).improved =
      (([("a.py", successRecord 1)] : List (String × FileRecord)).filter
        (fun r => decide (r.2.status = .success))).length ∧
    (⟨1, 1, 1, [("a.py", successRecord 1)]⟩ : BatchSummary).successful =
      (([("a.py", successRecord 1)] : List (String × FileRecord)).filter
        (fun r => decide (r.2.status = .success) ||
          decide (r.2.status = .no_fix_needed))).length := by
  have h := C3_amended stdPyO stdAO stdFixO stdValO ["a.py"] 10 cAnalysesA
    (by decide) (by decide) ⟨1, 1, 1, [("a.py", successRecord 1)]⟩
    [("a.py", 1)] [("a.py", 1)] (by decide)
  exact ⟨h.2.2, h.2.1⟩

/-- C7.  A file whose discovery-phase quality signal has score at least 7.0,
an empty issue list and no prober error is partitioned straight to the
`no_fix_needed` record (which carries `validated: True`), never enters the
pending set, and the run's summary contains that record while the repair and
validation call traces never mention the file. -/
theorem C7_clean_file_never_touched (PyO : String → PylintResult)
    (AO : String → AnalyzeOutcome) (FixO : String → Nat → FixOutcome)
    (ValO : String → Nat → ValOutcome) (files : List String) (mi : Nat)
    (analyses : List Analysis) (a : Analysis) (fp : String) (sc : ℚ)
    (hnd : (analyses.map Analysis.filepath).Nodup)
    (hplan : createRefactoringPlan PyO AO files = .ok analyses)
    (hmem : a ∈ analyses)
    (hfp : a.filepath = fp)
    (hpy : a.pylint = ⟨sc, [], none⟩)
    (hsc : 7 ≤ sc)
    (hneeds : a.needs = needsRefactoring a.pylint) :
    ∃ s fc vc, runX PyO AO FixO ValO files mi = (.summary s, fc, vc) ∧
      (fp, noFixRecord sc) ∈ s.results ∧
      (noFixRecord sc).validated = true ∧
      (∀ j, (fp, j) ∉ fc) ∧ (∀ j, (fp, j) ∉ vc) := by
  have hneF : a.needs = false := by
    rw [hneeds, hpy]
    simp [needsRefactoring]
    exact hsc
  have hpc := partitionAnalyses_char analyses hnd
  have hmemf : a ∈ analyses.filter (fun x => !x.needs) :=
    List.mem_filter.mpr ⟨hmem, by rw [hneF]; rfl⟩
  have hrec : (fp, noFixRecord sc) ∈ (partitionAnalyses analyses).2 := by
    rw [hpc]
    exact List.mem_map.mpr ⟨a, hmemf, by rw [hfp, hpy]⟩
  have hnotp : fp ∉ keys (partitionAnalyses analyses).1 := by
    rw [hpc, keys_map_pending]
    intro hin
    obtain ⟨b, hbf, hbfp⟩ := List.mem_map.mp hin
    obtain ⟨hb1, hb2⟩ := List.mem_filter.mp hbf
    have hba : b = a :=
      List.inj_on_of_nodup_map hnd hb1 hmem (by rw [hbfp, hfp])
    rw [hba, hneF] at hb2
    simp at hb2
  have h1f : analyses.isEmpty = false := by
    cases analyses with
    | nil => simp at hmem
    | cons x l => rfl
  by_cases h2 : (partitionAnalyses analyses).1.isEmpty
  · refine ⟨buildSummary (partitionAnalyses analyses).2, [], [],
      runX_noPending PyO AO FixO ValO files mi analyses hplan h1f h2, hrec, rfl,
      fun j hj => by simp at hj, fun j hj => by simp at hj⟩
  · have h2f : (partitionAnalyses analyses).1.isEmpty = false := by
      revert h2; cases (partitionAnalyses analyses).1.isEmpty <;> simp
    have hpres := runLoop_preserve FixO ValO mi mi (partitionAnalyses analyses).1
      (partitionAnalyses analyses).2 [] [] fp hnotp
    by_cases h3 : (runLoop FixO ValO mi mi (partitionAnalyses analyses).1
      (partitionAnalyses analyses).2 [] []).quota
    · refine ⟨_, _, _,
        runX_quota_exit PyO AO FixO ValO files mi analyses hplan h1f h2f h3, ?_, rfl,
        ?_, ?_⟩
      · show (fp, noFixRecord sc) ∈ markAll _ _ quotaRecord
        rw [markAll_preserve _ _ _ fp hpres.1]
        exact (hpres.2.1 _).mpr hrec
      · intro j hj
        have := (hpres.2.2.1 j).mp hj
        simp at this
      · intro j hj
        have := (hpres.2.2.2 j).mp hj
        simp at this
    · have h3f : (runLoop FixO ValO mi mi (partitionAnalyses analyses).1
          (partitionAnalyses analyses).2 [] []).quota = false := by
        revert h3
        cases (runLoop FixO ValO mi mi (partitionAnalyses analyses).1
          (partitionAnalyses analyses).2 [] []).quota <;> simp
      refine ⟨_, _, _,
        runX_normal_exit PyO AO FixO ValO files mi analyses hplan h1f h2f h3f, ?_, rfl,
        ?_, ?_⟩
      · show (fp, noFixRecord sc) ∈ markAll _ _ (maxIterRecord mi)
        rw [markAll_preserve _ _ _ fp hpres.1]
        exact (hpres.2.1 _).mpr hrec
      · intro j hj
        have := (hpres.2.2.1 j).mp hj
        simp at this
      · intro j hj
        have := (hpres.2.2.2 j).mp hj
        simp at this

/-- Pylint reports a clean 9.0 for every file. -/
def cleanPyO : String → PylintResult := fun _ => ⟨9, [], none⟩

/-- The analysis produced for a clean file. -/
def cleanAnalysisA : Analysis := ⟨"good.py", ⟨9, [], none⟩, "issues found", false, none⟩

/-- Witness for C7 on a one-file batch whose file scores 9.0 with no issues:
the summary holds its `no_fix_needed` record and no call trace mentions it. -/
theorem C7_clean_file_never_touched_witness :
    ∃ s fc vc, runX cleanPyO stdAO stdFixO stdValO ["good.py"] 10 =
        (.summary s, fc, vc) ∧
      ("good.py", noFixRecord 9) ∈ s.results ∧
      (noFixRecord 9).validated = true ∧
      (∀ j, ("good.py", j) ∉ fc) ∧ (∀ j, ("good.py", j) ∉ vc) :=
  C7_clean_file_never_touched cleanPyO stdAO stdFixO stdValO ["good.py"] 10
    [cleanAnalysisA] cleanAnalysisA "good.py" 9
    (by decide) (by decide) (by decide) (by decide) (by decide)
    (by norm_num) (by decide)

theorem partFold_mono1 (l : List Analysis)
    (st : List (String × Analysis) × List (String × FileRecord)) (fp : String)
    (h : fp ∈ keys st.1) : fp ∈ keys (l.foldl partStep st).1 := by
  induction l generalizing st with
  | nil => exact h
  | cons c rest ih =>
      rw [List.foldl_cons]
      apply ih
      rw [partStep]
      cases hn : c.needs with
      | true =>
          rw [if_pos rfl]
          exact mem_keys_dinsert_mono st.1 c.filepath fp c h
      | false =>
          rw [if_neg (by simp)]
          exact h

theorem partFold_mono2 (l : List Analysis)
    (st : List (String × Analysis) × List (String × FileRecord)) (fp : String)
    (h : fp ∈ keys st.2) : fp ∈ keys (l.foldl partStep st).2 := by
  induction l generalizing st with
  | nil => exact h
  | cons c rest ih =>
      rw [List.foldl_cons]
      apply ih
      rw [partStep]
      cases hn : c.needs with
      | true =>
          rw [if_pos rfl]
          exact h
      | false =>
          rw [if_neg (by simp)]
          exact mem_keys_dinsert_mono st.2 c.filepath fp _ h

/-- Every analysed file ends up either pending or already terminal after the
Phase-1 partition. -/
theorem partFold_mem (l : List Analysis) (a : Analysis)
    (st : List (String × Analysis) × List (String × FileRecord))
    (hmem : a ∈ l) :
    a.filepath ∈ keys (l.foldl partStep st).1 ∨
    a.filepath ∈ keys (l.foldl partStep st).2 := by
  induction l generalizing st with
  | nil => simp at hmem
  | cons b rest ih =>
      rw [List.foldl_cons]
      rcases List.mem_cons.mp hmem with hba | hrest
      · rw [partStep]
        cases hn : b.needs with
        | true =>
            left
            apply partFold_mono1
            rw [if_pos rfl, hba]
            exact mem_keys_dinsert_self st.1 b.filepath b
        | false =>
            right
            apply partFold_mono2
            rw [if_neg (by simp), hba]
            exact mem_keys_dinsert_self st.2 b.filepath _
      · exact ih (partStep st b) hrest

/-- Every filepath that made it into the plan is accounted for, under some
record, in the batch summary the run returns. -/
theorem run_accounts (PyO : String → PylintResult) (AO : String → AnalyzeOutcome)
    (FixO : String → Nat → FixOutcome) (ValO : String → Nat → ValOutcome)
    (files : List String) (mi : Nat) (analyses : List Analysis) (fp : String)
    (hplan : createRefactoringPlan PyO AO files = .ok analyses)
    (hfp : fp ∈ analyses.map Analysis.filepath) :
    ∃ s fc vc, runX PyO AO FixO ValO files mi = (.summary s, fc, vc) ∧
      fp ∈ keys s.results := by
  obtain ⟨a, hmem, hafp⟩ := List.mem_map.mp hfp
  have h1f : analyses.isEmpty = false := by
    cases analyses with
    | nil => simp at hmem
    | cons x l => rfl
  have hsplit : fp ∈ keys (partitionAnalyses analyses).1 ∨
      fp ∈ keys (partitionAnalyses analyses).2 := by
    rw [← hafp]
    exact partFold_mem analyses a ([], []) hmem
  by_cases h2 : (partitionAnalyses analyses).1.isEmpty
  · have hfp2 : fp ∈ keys (partitionAnalyses analyses).2 := by
      rcases hsplit with h | h
      · rw [List.isEmpty_iff.mp h2] at h
        simp [keys] at h
      · exact h
    exact ⟨buildSummary (partitionAnalyses analyses).2, [], [],
      runX_noPending PyO AO FixO ValO files mi analyses hplan h1f h2, hfp2⟩
  · have h2f : (partitionAnalyses analyses).1.isEmpty = false := by
      revert h2; cases (partitionAnalyses analyses).1.isEmpty <;> simp
    have hloop := runLoop_complete FixO ValO mi mi (partitionAnalyses analyses).1
      (partitionAnalyses analyses).2 [] [] fp hsplit
    have hfinal : ∀ r : FileRecord, fp ∈ keys (markAll
        (runLoop FixO ValO mi mi (partitionAnalyses analyses).1
          (partitionAnalyses analyses).2 [] []).pending
        (runLoop FixO ValO mi mi (partitionAnalyses analyses).1
          (partitionAnalyses analyses).2 [] []).results r) :=
      fun r => markAll_complete _ _ r fp hloop
    by_cases h3 : (runLoop FixO ValO mi mi (partitionAnalyses analyses).1
      (partitionAnalyses analyses).2 [] []).quota
    · exact ⟨_, _, _,
        runX_quota_exit PyO AO FixO ValO files mi analyses hplan h1f h2f h3,
        hfinal quotaRecord⟩
    · have h3f : (runLoop FixO ValO mi mi (partitionAnalyses analyses).1
          (partitionAnalyses analyses).2 [] []).quota = false := by
        revert h3
        cases (runLoop FixO ValO mi mi (partitionAnalyses analyses).1
          (partitionAnalyses analyses).2 [] []).quota <;> simp
      exact ⟨_, _, _,
        runX_normal_exit PyO AO FixO ValO files mi analyses hplan h1f h2f h3f,
        hfinal (maxIterRecord mi)⟩

/-- C1, amended.  Of the non-quota analysis failures, only model-call
failures (`LLMError`) degrade gracefully: the file is kept with a
conservative needs-work verdict computed from the pylint signal alone and is
accounted for in the final summary.  Any other exception during a file's
analysis is caught and logged by `create_refactoring_plan`, but the file is
dropped from the plan entirely and appears under no verdict in the batch
result. -/
theorem C1_amended (PyO : String → PylintResult) (AO : String → AnalyzeOutcome)
    (FixO : String → Nat → FixOutcome) (ValO : String → Nat → ValOutcome)
    (files : List String) (mi : Nat) (fp m : String)
    (hq1 : ∀ f ∈ files, AO f ≠ .quota)
    (hfp : fp ∈ files)
    (hA : AO fp = .llmError m) :
    ∃ a analyses,
      analyzeFile PyO AO fp = .ok a ∧
      a.needs = needsRefactoring (PyO fp) ∧
      a.analysisError = some m ∧
      createRefactoringPlan PyO AO files = .ok analyses ∧
      a ∈ analyses ∧
      (∃ s fc vc, runX PyO AO FixO ValO files mi = (.summary s, fc, vc) ∧
        fp ∈ keys s.results) ∧
      (∀ g ∈ files, AO g = .otherError → g ∉ analyses.map Analysis.filepath) := by
  have hAF : analyzeFile PyO AO fp =
      .ok ⟨fp, PyO fp, "LLM error: " ++ m ++ " - Please check your API quota.",
           needsRefactoring (PyO fp), some m⟩ := by
    rw [analyzeFile, hA]
  have hplan := createRefactoringPlan_noquota PyO AO files hq1
  refine ⟨⟨fp, PyO fp, "LLM error: " ++ m ++ " - Please check your API quota.",
           needsRefactoring (PyO fp), some m⟩,
    files.filterMap (fun f => (analyzeFile PyO AO f).toOption),
    hAF, rfl, rfl, hplan, ?_, ?_, ?_⟩
  · apply List.mem_filterMap.mpr
    exact ⟨fp, hfp, by rw [hAF]; rfl⟩
  · apply run_accounts PyO AO FixO ValO files mi _ fp hplan
    apply List.mem_map.mpr
    refine ⟨_, List.mem_filterMap.mpr ⟨fp, hfp, by rw [hAF]; rfl⟩, rfl⟩
  · intro g hg hgO hgmem
    obtain ⟨b, hb, hbfp⟩ := List.mem_map.mp hgmem
    obtain ⟨f, hf, hfb⟩ := List.mem_filterMap.mp hb
    have hfok : analyzeFile PyO AO f = .ok b := by
      cases hE : analyzeFile PyO AO f with
      | error e => rw [hE] at hfb; simp [Except.toOption] at hfb
      | ok c =>
          rw [hE] at hfb
          simp [Except.toOption] at hfb
          simp [hfb]
    have hfg : f = g := by
      rw [← analyzeFile_filepath PyO AO f b hfok, hbfp]
    rw [hfg, analyzeFile, hgO] at hfok
    exact absurd hfok (by simp)

/-- An analysis oracle whose model call fails with a non-quota `LLMError` on
`a.py` and succeeds elsewhere. -/
def llmFailAO : String → AnalyzeOutcome := fun f =>
  if f = "a.py" then .llmError "boom" else .ok "issues found"

/-- Witness for the amended C1: with the model call failing on `a.py`, the
file keeps a conservative pylint-derived verdict and is accounted for in the
summary. -/
theorem C1_amended_witness :
    ∃ a analyses,
      analyzeFile stdPyO llmFailAO "a.py" = .ok a ∧
      a.needs = needsRefactoring (stdPyO "a.py") ∧
      a.analysisError = some "boom" ∧
      createRefactoringPlan stdPyO llmFailAO ["a.py", "b.py"] = .ok analyses ∧
      a ∈ analyses ∧
      (∃ s fc vc, runX stdPyO llmFailAO stdFixO stdValO ["a.py", "b.py"] 10 =
        (.summary s, fc, vc) ∧ "a.py" ∈ keys s.results) ∧
      (∀ g ∈ ["a.py", "b.py"], llmFailAO g = .otherError →
        g ∉ analyses.map Analysis.filepath) :=
  C1_amended stdPyO llmFailAO stdFixO stdValO ["a.py", "b.py"] 10 "a.py" "boom"
    (by decide) (by decide) (by decide)

/-! ## Helper lemmas for C8 and C10 -/

theorem key_filter_excluded {g : String × Analysis → Bool}
    {p : List (String × Analysis)} (hnd : (keys p).Nodup)
    {fp : String} {a : Analysis} (hmem : (fp, a) ∈ p) (hg : g (fp, a) = false) :
    fp ∉ keys (p.filter g) := by
  intro hin
  rw [mem_keys_iff] at hin
  obtain ⟨b, hb⟩ := hin
  have hbp : (fp, b) ∈ p := (List.mem_filter.mp hb).1
  have hab : (fp, a) = (fp, b) :=
    List.inj_on_of_nodup_map hnd hmem hbp rfl
  rw [← hab] at hb
  rw [(List.mem_filter.mp hb).2] at hg
  exact absurd hg (by simp)

theorem valUpd_fst (ValO : String → Nat → ValOutcome) (iter : Nat)
    (x : String × Analysis) : (valUpd ValO iter x).1 = x.1 := by
  unfold valUpd
  cases ValO x.1 iter <;> rfl

theorem keys_valUpd_map (ValO : String → Nat → ValOutcome) (iter : Nat)
    (l : List (String × Analysis)) :
    keys (l.map (valUpd ValO iter)) = keys l := by
  unfold keys
  rw [List.map_map]
  exact List.map_congr_left (fun x _ => valUpd_fst ValO iter x)

theorem keys_map_pair_iter {l : List (String × Analysis)} {iter : Nat}
    {fp : String} {j : Nat}
    (h : (fp, j) ∈ l.map (fun x => (x.1, iter))) : fp ∈ keys l ∧ j = iter := by
  obtain ⟨x, hx, hxe⟩ := List.mem_map.mp h
  have h1 : x.1 = fp := congrArg Prod.fst hxe
  have h2 : iter = j := congrArg Prod.snd hxe
  exact ⟨h1 ▸ List.mem_map_of_mem Prod.fst hx, h2.symm⟩

theorem keys_map_record {l : List (String × Analysis)} {fp : String}
    {v r : FileRecord}
    (h : (fp, v) ∈ l.map (fun x => (x.1, r))) : fp ∈ keys l := by
  obtain ⟨x, hx, hxe⟩ := List.mem_map.mp h
  have h1 : x.1 = fp := congrArg Prod.fst hxe
  exact h1 ▸ List.mem_map_of_mem Prod.fst hx

/-- C8.  In a quota-free run, a file whose repair attempt fails in a round
(the fixer returns `fixed: False`, whether from a model error or a
write/pylint exception) receives the terminal `fix_failed` record for that
same round, leaves the pending set, and is never repaired or validated
afterwards: the loop's final fix-call trace contains the failing round's
call and no later call for that file, and its validation-call trace never
mentions the file at all. -/
theorem C8_fix_failed_terminal (FixO : String → Nat → FixOutcome)
    (ValO : String → Nat → ValOutcome) (mi k : Nat)
    (p : List (String × Analysis)) (res : List (String × FileRecord))
    (fc vc : List (String × Nat)) (fp : String) (a : Analysis) (m : String)
    (hnqF : ∀ f i, FixO f i ≠ .quota)
    (hnqV : ∀ f i, ValO f i ≠ .quota)
    (hinv : DictInv p res)
    (hmem : (fp, a) ∈ p)
    (hfail : FixO fp (mi - k) = .llmError m ∨ FixO fp (mi - k) = .writeError m) :
    (fp, fixFailedRecord (mi - k)) ∈ (runLoop FixO ValO mi (k + 1) p res fc vc).results ∧
    fp ∉ keys (runLoop FixO ValO mi (k + 1) p res fc vc).pending ∧
    (fp, mi - k) ∈ (runLoop FixO ValO mi (k + 1) p res fc vc).fixCalls ∧
    (∀ j, (fp, j) ∈ (runLoop FixO ValO mi (k + 1) p res fc vc).fixCalls →
      (fp, j) ∈ fc ∨ j = mi - k) ∧
    (∀ j, (fp, j) ∈ (runLoop FixO ValO mi (k + 1) p res fc vc).valCalls →
      (fp, j) ∈ vc) := by
  have hpe : p.isEmpty = false := by
    cases p with
    | nil => simp at hmem
    | cons x l => rfl
  have hfchar := fixPass_noquota_char FixO (mi - k) p [] res fc
    (fun x _ => hnqF x.1 (mi - k))
    (fun x hx => hinv.2.2 x.1 (List.mem_map_of_mem Prod.fst hx))
    hinv.1
  simp only [List.nil_append] at hfchar
  have hfpOk : fixOk FixO (mi - k) (fp, a) = false := by
    rcases hfail with h | h <;> simp [fixOk, h]
  have hfailmem : (fp, fixFailedRecord (mi - k)) ∈ res ++
      (p.filter (fun x => !fixOk FixO (mi - k) x)).map
        (fun x => (x.1, fixFailedRecord (mi - k))) := by
    rw [List.mem_append]
    right
    exact List.mem_map.mpr ⟨(fp, a),
      List.mem_filter.mpr ⟨hmem, by rw [hfpOk]; rfl⟩, rfl⟩
  have hnp1 : fp ∉ keys (p.filter (fixOk FixO (mi - k))) :=
    key_filter_excluded hinv.1 hmem hfpOk
  have hinv1 : DictInv (p.filter (fixOk FixO (mi - k)))
      (res ++ (p.filter (fun x => !fixOk FixO (mi - k) x)).map
        (fun x => (x.1, fixFailedRecord (mi - k)))) := by
    have h := fixPass_inv FixO (mi - k) p [] res fc (by simpa using hinv)
    rw [hfchar] at h
    simpa using h
  have hvchar := valPass_noquota_char ValO (mi - k)
    (p.filter (fixOk FixO (mi - k))) [] _ vc false
    (fun x _ => hnqV x.1 (mi - k))
    (fun x hx => hinv1.2.2 x.1 (List.mem_map_of_mem Prod.fst hx))
    hinv1.1
  simp only [List.nil_append, Bool.false_or] at hvchar
  have hnp2 : fp ∉ keys (((p.filter (fixOk FixO (mi - k))).filter
      (fun x => !valOk ValO (mi - k) x)).map (valUpd ValO (mi - k))) := by
    rw [keys_valUpd_map]
    intro hin
    rw [mem_keys_iff] at hin
    obtain ⟨b, hb⟩ := hin
    exact hnp1 ((mem_keys_iff _ fp).mpr ⟨b, (List.mem_filter.mp hb).1⟩)
  have hres2 : ∀ v : FileRecord, ((fp, v) ∈ (res ++
      (p.filter (fun x => !fixOk FixO (mi - k) x)).map
        (fun x => (x.1, fixFailedRecord (mi - k)))) ++
      ((p.filter (fixOk FixO (mi - k))).filter (valOk ValO (mi - k))).map
        (fun x => (x.1, successRecord (mi - k))) ↔
      (fp, v) ∈ res ++ (p.filter (fun x => !fixOk FixO (mi - k) x)).map
        (fun x => (x.1, fixFailedRecord (mi - k)))) := by
    intro v
    rw [List.mem_append]
    constructor
    · rintro (h | h)
      · exact h
      · exfalso
        apply hnp1
        have := keys_map_record h
        rw [mem_keys_iff] at this ⊢
        obtain ⟨b, hb⟩ := this
        exact ⟨b, (List.mem_filter.mp hb).1⟩
    · exact Or.inl
  have hvc2 : ∀ j, (fp, j) ∈ vc ++ (p.filter (fixOk FixO (mi - k))).map
      (fun x => (x.1, mi - k)) → (fp, j) ∈ vc := by
    intro j hj
    rw [List.mem_append] at hj
    rcases hj with hj | hj
    · exact hj
    · exact absurd (keys_map_pair_iter hj).1 hnp1
  have hfc1a : (fp, mi - k) ∈ fc ++ p.map (fun x => (x.1, mi - k)) := by
    rw [List.mem_append]
    right
    exact List.mem_map.mpr ⟨(fp, a), hmem, rfl⟩
  have hfc1b : ∀ j, (fp, j) ∈ fc ++ p.map (fun x => (x.1, mi - k)) →
      (fp, j) ∈ fc ∨ j = mi - k := by
    intro j hj
    rw [List.mem_append] at hj
    rcases hj with hj | hj
    · exact Or.inl hj
    · exact Or.inr (keys_map_pair_iter hj).2
  cases hAF : (p.filter (fixOk FixO (mi - k))).any
      (fun x => !valOk ValO (mi - k) x) with
  | true =>
      rw [hAF] at hvchar
      rw [runLoop_succ_next FixO ValO mi k p
        (p.filter (fixOk FixO (mi - k)))
        (((p.filter (fixOk FixO (mi - k))).filter (fun x => !valOk ValO (mi - k) x)).map (valUpd ValO (mi - k)))
        res
        (res ++ (p.filter (fun x => !fixOk FixO (mi - k) x)).map (fun x => (x.1, fixFailedRecord (mi - k))))
        ((res ++ (p.filter (fun x => !fixOk FixO (mi - k) x)).map (fun x => (x.1, fixFailedRecord (mi - k)))) ++ ((p.filter (fixOk FixO (mi - k))).filter (valOk ValO (mi - k))).map (fun x => (x.1, successRecord (mi - k))))
        fc
        (fc ++ p.map (fun x => (x.1, mi - k)))
        vc
        (vc ++ (p.filter (fixOk FixO (mi - k))).map (fun x => (x.1, mi - k)))
        hpe hfchar hvchar]
      have hpres := runLoop_preserve FixO ValO mi k
        (((p.filter (fixOk FixO (mi - k))).filter (fun x => !valOk ValO (mi - k) x)).map (valUpd ValO (mi - k)))
        ((res ++ (p.filter (fun x => !fixOk FixO (mi - k) x)).map (fun x => (x.1, fixFailedRecord (mi - k)))) ++ ((p.filter (fixOk FixO (mi - k))).filter (valOk ValO (mi - k))).map (fun x => (x.1, successRecord (mi - k))))
        (fc ++ p.map (fun x => (x.1, mi - k)))
        (vc ++ (p.filter (fixOk FixO (mi - k))).map (fun x => (x.1, mi - k)))
        fp hnp2
      refine ⟨?_, hpres.1, ?_, ?_, ?_⟩
      · rw [hpres.2.1, hres2]
        exact hfailmem
      · rw [hpres.2.2.1]
        exact hfc1a
      · intro j hj
        exact hfc1b j ((hpres.2.2.1 j).mp hj)
      · intro j hj
        exact hvc2 j ((hpres.2.2.2 j).mp hj)
  | false =>
      rw [hAF] at hvchar
      rw [runLoop_succ_conv FixO ValO mi k p
        (p.filter (fixOk FixO (mi - k)))
        (((p.filter (fixOk FixO (mi - k))).filter (fun x => !valOk ValO (mi - k) x)).map (valUpd ValO (mi - k)))
        res
        (res ++ (p.filter (fun x => !fixOk FixO (mi - k) x)).map (fun x => (x.1, fixFailedRecord (mi - k))))
        ((res ++ (p.filter (fun x => !fixOk FixO (mi - k) x)).map (fun x => (x.1, fixFailedRecord (mi - k)))) ++ ((p.filter (fixOk FixO (mi - k))).filter (valOk ValO (mi - k))).map (fun x => (x.1, successRecord (mi - k))))
        fc
        (fc ++ p.map (fun x => (x.1, mi - k)))
        vc
        (vc ++ (p.filter (fixOk FixO (mi - k))).map (fun x => (x.1, mi - k)))
        hpe hfchar hvchar]
      refine ⟨?_, hnp2, hfc1a, hfc1b, hvc2⟩
      rw [show (⟨_, _, _, _, false⟩ : LoopOut).results = _ from rfl]
      rw [hres2]
      exact hfailmem

/-- A fixer that fails (non-quota model error) on `bad.py` and succeeds on
everything else. -/
def failFixO : String → Nat → FixOutcome := fun f _ =>
  if f = "bad.py" then .llmError "model down" else .ok 5

/-- A two-file pending set for the C8 witness. -/
def c8Pending : List (String × Analysis) :=
  [("bad.py", ⟨"bad.py", ⟨5, [], none⟩, "issues found", true, none⟩),
   ("c.py", ⟨"c.py", ⟨5, [], none⟩, "issues found", true, none⟩)]

/-- Witness for C8: in round 1 of a ten-round loop, `bad.py`'s failed repair
is terminal and the file is never touched again. -/
theorem C8_fix_failed_terminal_witness :
    ("bad.py", fixFailedRecord (10 - 9)) ∈
      (runLoop failFixO stdValO 10 (9 + 1) c8Pending [] [] []).results ∧
    "bad.py" ∉ keys (runLoop failFixO stdValO 10 (9 + 1) c8Pending [] [] []).pending ∧
    ("bad.py", 10 - 9) ∈
      (runLoop failFixO stdValO 10 (9 + 1) c8Pending [] [] []).fixCalls ∧
    (∀ j, ("bad.py", j) ∈ (runLoop failFixO stdValO 10 (9 + 1) c8Pending [] [] []).fixCalls →
      ("bad.py", j) ∈ ([] : List (String × Nat)) ∨ j = 10 - 9) ∧
    (∀ j, ("bad.py", j) ∈ (runLoop failFixO stdValO 10 (9 + 1) c8Pending [] [] []).valCalls →
      ("bad.py", j) ∈ ([] : List (String × Nat))) :=
  C8_fix_failed_terminal failFixO stdValO 10 9 c8Pending [] [] [] "bad.py"
    ⟨"bad.py", ⟨5, [], none⟩, "issues found", true, none⟩ "model down"
    (fun f i => by by_cases h : f = "bad.py" <;> simp [failFixO, h])
    (fun f i => by simp [stdValO])
    (by decide) (by decide) (Or.inl (by decide))

/-! ## Call-trace monotonicity -/

theorem fixPass_calls_mono (FixO : String → Nat → FixOutcome) (iter : Nat)
    (todo kept : List (String × Analysis)) (res : List (String × FileRecord))
    (calls : List (String × Nat)) :
    ∀ x ∈ calls, x ∈ (exJoin (fixPass FixO iter todo kept res calls)).2.2 := by
  induction todo generalizing kept res calls with
  | nil =>
      rw [fixPass_nil]
      exact fun x hx => hx
  | cons y rest ih =>
      obtain ⟨q, a⟩ := y
      intro x hx
      cases hF : FixO q iter with
      | quota =>
          rw [fixPass_cons_quota a rest kept res calls hF]
          exact List.mem_append.mpr (Or.inl hx)
      | llmError m =>
          rw [fixPass_cons_llm a rest kept res calls hF]
          exact ih kept _ _ x (List.mem_append.mpr (Or.inl hx))
      | writeError m =>
          rw [fixPass_cons_write a rest kept res calls hF]
          exact ih kept _ _ x (List.mem_append.mpr (Or.inl hx))
      | ok ns =>
          rw [fixPass_cons_ok a rest kept res calls hF]
          exact ih _ res _ x (List.mem_append.mpr (Or.inl hx))

theorem valPass_calls_mono (ValO : String → Nat → ValOutcome) (iter : Nat)
    (todo kept : List (String × Analysis)) (res : List (String × FileRecord))
    (calls : List (String × Nat)) (af : Bool) :
    ∀ x ∈ calls, x ∈ (vpOut (valPass ValO iter todo kept res calls af)).2.2 := by
  induction todo generalizing kept res calls af with
  | nil =>
      rw [valPass_nil]
      exact fun x hx => hx
  | cons y rest ih =>
      obtain ⟨q, a⟩ := y
      intro x hx
      cases hV : ValO q iter with
      | quota =>
          rw [valPass_cons_quota a rest kept res calls af hV]
          exact List.mem_append.mpr (Or.inl hx)
      | genFailed =>
          rw [valPass_cons_genFailed a rest kept res calls af hV]
          exact ih _ res _ _ x (List.mem_append.mpr (Or.inl hx))
      | tests tr =>
          cases hp : tr.passed with
          | true =>
              rw [valPass_cons_pass a rest kept res calls af hV hp]
              exact ih kept _ _ _ x (List.mem_append.mpr (Or.inl hx))
          | false =>
              rw [valPass_cons_fail a rest kept res calls af hV hp]
              exact ih _ res _ _ x (List.mem_append.mpr (Or.inl hx))

theorem runLoop_calls_mono (FixO : String → Nat → FixOutcome)
    (ValO : String → Nat → ValOutcome) (mi : Nat) (k : Nat)
    (p : List (String × Analysis)) (res : List (String × FileRecord))
    (fc vc : List (String × Nat)) :
    (∀ x ∈ fc, x ∈ (runLoop FixO ValO mi k p res fc vc).fixCalls) ∧
    (∀ x ∈ vc, x ∈ (runLoop FixO ValO mi k p res fc vc).valCalls) := by
  induction k generalizing p res fc vc with
  | zero =>
      rw [runLoop_zero]
      exact ⟨fun x hx => hx, fun x hx => hx⟩
  | succ k ih =>
      by_cases hpe : p.isEmpty = true
      · rw [runLoop_succ_empty FixO ValO mi k p res fc vc hpe]
        exact ⟨fun x hx => hx, fun x hx => hx⟩
      · have hpe' : p.isEmpty = false := by revert hpe; cases p.isEmpty <;> simp
        have hfm := fixPass_calls_mono FixO (mi - k) p [] res fc
        cases hfp : fixPass FixO (mi - k) p [] res fc with
        | error t =>
            obtain ⟨pq, resq, fcq⟩ := t
            rw [hfp] at hfm
            rw [runLoop_succ_quotafix FixO ValO mi k p pq res resq fc fcq vc hpe' hfp]
            exact ⟨hfm, fun x hx => hx⟩
        | ok t =>
            obtain ⟨p1, res1, fc1⟩ := t
            rw [hfp] at hfm
            have hvm := valPass_calls_mono ValO (mi - k) p1 [] res1 vc false
            cases hvp : valPass ValO (mi - k) p1 [] res1 vc false with
            | error u =>
                obtain ⟨pq, resq, vcq⟩ := u
                rw [hvp] at hvm
                rw [runLoop_succ_quotaval FixO ValO mi k p p1 pq res res1 resq
                  fc fc1 vc vcq hpe' hfp hvp]
                exact ⟨hfm, hvm⟩
            | ok u =>
                obtain ⟨p2, res2, vc2, af⟩ := u
                rw [hvp] at hvm
                cases af with
                | true =>
                    rw [runLoop_succ_next FixO ValO mi k p p1 p2 res res1 res2
                      fc fc1 vc vc2 hpe' hfp hvp]
                    have hrec := ih p2 res2 fc1 vc2
                    exact ⟨fun x hx => hrec.1 x (hfm x hx),
                      fun x hx => hrec.2 x (hvm x hx)⟩
                | false =>
                    rw [runLoop_succ_conv FixO ValO mi k p p1 p2 res res1 res2
                      fc fc1 vc vc2 hpe' hfp hvp]
                    exact ⟨hfm, hvm⟩

/-- In a quota-free round, every pending file receives a repair call for that
round, and the call survives into the loop's final trace. -/
theorem runLoop_fixCalls_all (FixO : String → Nat → FixOutcome)
    (ValO : String → Nat → ValOutcome) (mi : Nat) (k : Nat)
    (p : List (String × Analysis)) (res : List (String × FileRecord))
    (fc vc : List (String × Nat))
    (hnqF : ∀ f i, FixO f i ≠ .quota)
    (hnqV : ∀ f i, ValO f i ≠ .quota)
    (hinv : DictInv p res) :
    ∀ x ∈ p, (x.1, mi - k) ∈ (runLoop FixO ValO mi (k + 1) p res fc vc).fixCalls := by
  intro x hx
  have hpe : p.isEmpty = false := by
    cases p with
    | nil => simp at hx
    | cons y l => rfl
  have hfchar := fixPass_noquota_char FixO (mi - k) p [] res fc
    (fun y _ => hnqF y.1 (mi - k))
    (fun y hy => hinv.2.2 y.1 (List.mem_map_of_mem Prod.fst hy))
    hinv.1
  simp only [List.nil_append] at hfchar
  have hinv1 : DictInv (p.filter (fixOk FixO (mi - k)))
      (res ++ (p.filter (fun y => !fixOk FixO (mi - k) y)).map
        (fun y => (y.1, fixFailedRecord (mi - k)))) := by
    have h := fixPass_inv FixO (mi - k) p [] res fc (by simpa using hinv)
    rw [hfchar] at h
    simpa using h
  have hvchar := valPass_noquota_char ValO (mi - k)
    (p.filter (fixOk FixO (mi - k))) [] _ vc false
    (fun y _ => hnqV y.1 (mi - k))
    (fun y hy => hinv1.2.2 y.1 (List.mem_map_of_mem Prod.fst hy))
    hinv1.1
  simp only [List.nil_append, Bool.false_or] at hvchar
  have hcall : (x.1, mi - k) ∈ fc ++ p.map (fun y => (y.1, mi - k)) :=
    List.mem_append.mpr (Or.inr (List.mem_map.mpr ⟨x, hx, rfl⟩))
  cases hAF : (p.filter (fixOk FixO (mi - k))).any
      (fun y => !valOk ValO (mi - k) y) with
  | true =>
      rw [hAF] at hvchar
      rw [runLoop_succ_next FixO ValO mi k p
        (p.filter (fixOk FixO (mi - k)))
        (((p.filter (fixOk FixO (mi - k))).filter (fun y => !valOk ValO (mi - k) y)).map (valUpd ValO (mi - k)))
        res
        (res ++ (p.filter (fun y => !fixOk FixO (mi - k) y)).map (fun y => (y.1, fixFailedRecord (mi - k))))
        ((res ++ (p.filter (fun y => !fixOk FixO (mi - k) y)).map (fun y => (y.1, fixFailedRecord (mi - k)))) ++ ((p.filter (fixOk FixO (mi - k))).filter (valOk ValO (mi - k))).map (fun y => (y.1, successRecord (mi - k))))
        fc
        (fc ++ p.map (fun y => (y.1, mi - k)))
        vc
        (vc ++ (p.filter (fixOk FixO (mi - k))).map (fun y => (y.1, mi - k)))
        hpe hfchar hvchar]
      exact (runLoop_calls_mono FixO ValO mi k _ _ _ _).1 _ hcall
  | false =>
      rw [hAF] at hvchar
      rw [runLoop_succ_conv FixO ValO mi k p
        (p.filter (fixOk FixO (mi - k)))
        (((p.filter (fixOk FixO (mi - k))).filter (fun y => !valOk ValO (mi - k) y)).map (valUpd ValO (mi - k)))
        res
        (res ++ (p.filter (fun y => !fixOk FixO (mi - k) y)).map (fun y => (y.1, fixFailedRecord (mi - k))))
        ((res ++ (p.filter (fun y => !fixOk FixO (mi - k) y)).map (fun y => (y.1, fixFailedRecord (mi - k)))) ++ ((p.filter (fixOk FixO (mi - k))).filter (valOk ValO (mi - k))).map (fun y => (y.1, successRecord (mi - k))))
        fc
        (fc ++ p.map (fun y => (y.1, mi - k)))
        vc
        (vc ++ (p.filter (fixOk FixO (mi - k))).map (fun y => (y.1, mi - k)))
        hpe hfchar hvchar]
      exact hcall

/-- A judge whose test generation always fails with a non-quota model error
(`generate_tests` returns `None`). -/
def c10ValO : String → Nat → ValOutcome := fun _ _ => .genFailed

/-- The analysis of the single file in the C10 witness run. -/
def c10A : Analysis := ⟨"m.py", ⟨5, [], none⟩, "issues found", true, none⟩

/-- A one-file pending set for the C10 witness. -/
def c10Pending : List (String × Analysis) := [("m.py", c10A)]

/-- C10.  When test generation fails with a non-quota model error,
`validate_code` answers `{validated: False, error: "Could not generate
tests"}` instead of raising; in a quota-free round where the file's repair
succeeded, the file therefore stays in the pending set handed to the next
round, with the failure feedback appended to its analysis, the round writes
no terminal record for it, the loop recurses (rounds remain), and the next
round issues another repair call for the file. -/
theorem C10_genfail_nonterminal (FixO : String → Nat → FixOutcome)
    (ValO : String → Nat → ValOutcome) (mi k : Nat)
    (p : List (String × Analysis)) (res : List (String × FileRecord))
    (fc vc : List (String × Nat)) (fp : String) (a : Analysis)
    (hnqF : ∀ f i, FixO f i ≠ .quota)
    (hnqV : ∀ f i, ValO f i ≠ .quota)
    (hinv : DictInv p res)
    (hmem : (fp, a) ∈ p)
    (hfix : fixOk FixO (mi - (k + 1)) (fp, a) = true)
    (hval : ValO fp (mi - (k + 1)) = .genFailed) :
    validateCode (ValO fp (mi - (k + 1))) =
      .ok ⟨false, some "Could not generate tests", none⟩ ∧
    (fp, addFeedback a
        (getFailureFeedback fp ⟨false, some "Could not generate tests", none⟩)) ∈
      ((p.filter (fixOk FixO (mi - (k + 1)))).filter
        (fun x => !valOk ValO (mi - (k + 1)) x)).map (valUpd ValO (mi - (k + 1))) ∧
    runLoop FixO ValO mi (k + 1 + 1) p res fc vc =
      runLoop FixO ValO mi (k + 1)
        (((p.filter (fixOk FixO (mi - (k + 1)))).filter
          (fun x => !valOk ValO (mi - (k + 1)) x)).map (valUpd ValO (mi - (k + 1))))
        ((res ++ (p.filter (fun x => !fixOk FixO (mi - (k + 1)) x)).map
            (fun x => (x.1, fixFailedRecord (mi - (k + 1))))) ++
          ((p.filter (fixOk FixO (mi - (k + 1)))).filter
            (valOk ValO (mi - (k + 1)))).map
            (fun x => (x.1, successRecord (mi - (k + 1)))))
        (fc ++ p.map (fun x => (x.1, mi - (k + 1))))
        (vc ++ (p.filter (fixOk FixO (mi - (k + 1)))).map
          (fun x => (x.1, mi - (k + 1)))) ∧
    (∀ v, (fp, v) ∈
        (res ++ (p.filter (fun x => !fixOk FixO (mi - (k + 1)) x)).map
            (fun x => (x.1, fixFailedRecord (mi - (k + 1))))) ++
          ((p.filter (fixOk FixO (mi - (k + 1)))).filter
            (valOk ValO (mi - (k + 1)))).map
            (fun x => (x.1, successRecord (mi - (k + 1)))) →
      (fp, v) ∈ res) ∧
    (fp, mi - k) ∈ (runLoop FixO ValO mi (k + 1 + 1) p res fc vc).fixCalls := by
  have hpe : p.isEmpty = false := by
    cases p with
    | nil => simp at hmem
    | cons x l => rfl
  have hvr : validateCode (ValO fp (mi - (k + 1))) =
      .ok ⟨false, some "Could not generate tests", none⟩ := by
    rw [hval]
    rfl
  have hfchar := fixPass_noquota_char FixO (mi - (k + 1)) p [] res fc
    (fun x _ => hnqF x.1 (mi - (k + 1)))
    (fun x hx => hinv.2.2 x.1 (List.mem_map_of_mem Prod.fst hx))
    hinv.1
  simp only [List.nil_append] at hfchar
  have hmem1 : (fp, a) ∈ p.filter (fixOk FixO (mi - (k + 1))) :=
    List.mem_filter.mpr ⟨hmem, hfix⟩
  have hvOk : valOk ValO (mi - (k + 1)) (fp, a) = false := by
    simp [valOk, hval]
  have hinv1 : DictInv (p.filter (fixOk FixO (mi - (k + 1))))
      (res ++ (p.filter (fun x => !fixOk FixO (mi - (k + 1)) x)).map
        (fun x => (x.1, fixFailedRecord (mi - (k + 1))))) := by
    have h := fixPass_inv FixO (mi - (k + 1)) p [] res fc (by simpa using hinv)
    rw [hfchar] at h
    simpa using h
  have hvchar := valPass_noquota_char ValO (mi - (k + 1))
    (p.filter (fixOk FixO (mi - (k + 1)))) [] _ vc false
    (fun x _ => hnqV x.1 (mi - (k + 1)))
    (fun x hx => hinv1.2.2 x.1 (List.mem_map_of_mem Prod.fst hx))
    hinv1.1
  simp only [List.nil_append, Bool.false_or] at hvchar
  have hAF : (p.filter (fixOk FixO (mi - (k + 1)))).any
      (fun x => !valOk ValO (mi - (k + 1)) x) = true := by
    rw [List.any_eq_true]
    exact ⟨(fp, a), hmem1, by simp [valOk, hval]⟩
  rw [hAF] at hvchar
  have hP2mem : (fp, addFeedback a
      (getFailureFeedback fp ⟨false, some "Could not generate tests", none⟩)) ∈
      ((p.filter (fixOk FixO (mi - (k + 1)))).filter
        (fun x => !valOk ValO (mi - (k + 1)) x)).map (valUpd ValO (mi - (k + 1))) :=
    List.mem_map.mpr ⟨(fp, a),
      List.mem_filter.mpr ⟨hmem1, by simp [valOk, hval]⟩,
      by simp [valUpd, hval]⟩
  have hstep := runLoop_succ_next FixO ValO mi (k + 1) p
    (p.filter (fixOk FixO (mi - (k + 1))))
    (((p.filter (fixOk FixO (mi - (k + 1)))).filter (fun x => !valOk ValO (mi - (k + 1)) x)).map (valUpd ValO (mi - (k + 1))))
    res
    (res ++ (p.filter (fun x => !fixOk FixO (mi - (k + 1)) x)).map (fun x => (x.1, fixFailedRecord (mi - (k + 1)))))
    ((res ++ (p.filter (fun x => !fixOk FixO (mi - (k + 1)) x)).map (fun x => (x.1, fixFailedRecord (mi - (k + 1))))) ++ ((p.filter (fixOk FixO (mi - (k + 1)))).filter (valOk ValO (mi - (k + 1)))).map (fun x => (x.1, successRecord (mi - (k + 1)))))
    fc
    (fc ++ p.map (fun x => (x.1, mi - (k + 1))))
    vc
    (vc ++ (p.filter (fixOk FixO (mi - (k + 1)))).map (fun x => (x.1, mi - (k + 1))))
    hpe hfchar hvchar
  have hres4 : ∀ v, (fp, v) ∈
      (res ++ (p.filter (fun x => !fixOk FixO (mi - (k + 1)) x)).map
          (fun x => (x.1, fixFailedRecord (mi - (k + 1))))) ++
        ((p.filter (fixOk FixO (mi - (k + 1)))).filter
          (valOk ValO (mi - (k + 1)))).map
          (fun x => (x.1, successRecord (mi - (k + 1)))) →
      (fp, v) ∈ res := by
    intro v hv
    rw [List.mem_append] at hv
    rcases hv with hv | hv
    · rw [List.mem_append] at hv
      rcases hv with hv | hv
      · exact hv
      · exact absurd (keys_map_record hv)
          (key_filter_excluded hinv.1 hmem (by simp [hfix]))
    · exact absurd (keys_map_record hv)
        (key_filter_excluded hinv1.1 hmem1 hvOk)
  refine ⟨hvr, hP2mem, hstep, hres4, ?_⟩
  rw [hstep]
  have hinv2 : DictInv
      (((p.filter (fixOk FixO (mi - (k + 1)))).filter
        (fun x => !valOk ValO (mi - (k + 1)) x)).map (valUpd ValO (mi - (k + 1))))
      ((res ++ (p.filter (fun x => !fixOk FixO (mi - (k + 1)) x)).map
          (fun x => (x.1, fixFailedRecord (mi - (k + 1))))) ++
        ((p.filter (fixOk FixO (mi - (k + 1)))).filter
          (valOk ValO (mi - (k + 1)))).map
          (fun x => (x.1, successRecord (mi - (k + 1))))) := by
    have h := valPass_inv ValO (mi - (k + 1))
      (p.filter (fixOk FixO (mi - (k + 1)))) [] _ vc false (by simpa using hinv1)
    rw [hvchar] at h
    simpa using h
  have hnext := runLoop_fixCalls_all FixO ValO mi k
    (((p.filter (fixOk FixO (mi - (k + 1)))).filter
      (fun x => !valOk ValO (mi - (k + 1)) x)).map (valUpd ValO (mi - (k + 1))))
    ((res ++ (p.filter (fun x => !fixOk FixO (mi - (k + 1)) x)).map
        (fun x => (x.1, fixFailedRecord (mi - (k + 1))))) ++
      ((p.filter (fixOk FixO (mi - (k + 1)))).filter
        (valOk ValO (mi - (k + 1)))).map
        (fun x => (x.1, successRecord (mi - (k + 1)))))
    (fc ++ p.map (fun x => (x.1, mi - (k + 1))))
    (vc ++ (p.filter (fixOk FixO (mi - (k + 1)))).map
      (fun x => (x.1, mi - (k + 1))))
    hnqF hnqV hinv2
    (fp, addFeedback a
      (getFailureFeedback fp ⟨false, some "Could not generate tests", none⟩))
    hP2mem
  simpa using hnext

/-- Witness for C10: a two-round loop on one file whose fix succeeds but
whose test generation always fails; the file survives round 1 with feedback
and is repaired again in round 2. -/
theorem C10_genfail_nonterminal_witness :
    validateCode (c10ValO "m.py" (2 - (0 + 1))) =
      .ok ⟨false, some "Could not generate tests", none⟩ ∧
    ("m.py", addFeedback c10A
        (getFailureFeedback "m.py" ⟨false, some "Could not generate tests", none⟩)) ∈
      ((c10Pending.filter (fixOk stdFixO (2 - (0 + 1)))).filter
        (fun x => !valOk c10ValO (2 - (0 + 1)) x)).map (valUpd c10ValO (2 - (0 + 1))) ∧
    runLoop stdFixO c10ValO 2 (0 + 1 + 1) c10Pending [] [] [] =
      runLoop stdFixO c10ValO 2 (0 + 1)
        (((c10Pending.filter (fixOk stdFixO (2 - (0 + 1)))).filter
          (fun x => !valOk c10ValO (2 - (0 + 1)) x)).map (valUpd c10ValO (2 - (0 + 1))))
        (([] ++ (c10Pending.filter (fun x => !fixOk stdFixO (2 - (0 + 1)) x)).map
            (fun x => (x.1, fixFailedRecord (2 - (0 + 1))))) ++
          ((c10Pending.filter (fixOk stdFixO (2 - (0 + 1)))).filter
            (valOk c10ValO (2 - (0 + 1)))).map
            (fun x => (x.1, successRecord (2 - (0 + 1)))))
        ([] ++ c10Pending.map (fun x => (x.1, 2 - (0 + 1))))
        ([] ++ (c10Pending.filter (fixOk stdFixO (2 - (0 + 1)))).map
          (fun x => (x.1, 2 - (0 + 1)))) ∧
    (∀ v, ("m.py", v) ∈
        ([] ++ (c10Pending.filter (fun x => !fixOk stdFixO (2 - (0 + 1)) x)).map
            (fun x => (x.1, fixFailedRecord (2 - (0 + 1))))) ++
          ((c10Pending.filter (fixOk stdFixO (2 - (0 + 1)))).filter
            (valOk c10ValO (2 - (0 + 1)))).map
            (fun x => (x.1, successRecord (2 - (0 + 1)))) →
      ("m.py", v) ∈ ([] : List (String × FileRecord))) ∧
    ("m.py", 2 - 0) ∈ (runLoop stdFixO c10ValO 2 (0 + 1 + 1) c10Pending [] [] []).fixCalls :=
  C10_genfail_nonterminal stdFixO c10ValO 2 0 c10Pending [] [] [] "m.py" c10A
    (fun f i => by simp [stdFixO])
    (fun f i => by simp [c10ValO])
    (by decide) (by decide) (by decide) rfl

end RefactorSwarm
